import Mathlib

/-!
Shallow embedding of the TUF metadata model (`tuf/api/metadata.py`) and the
wire-record dictionaries it consumes and produces.

Python dictionaries are modelled as insertion-ordered association lists over
string keys; `dict.pop` becomes lookup-plus-erase with the residual dictionary
threaded explicitly (Python mutates the dict in place, we pass the mutated
dict back to the caller).  Python dict equality (`==`) ignores insertion
order, so it is modelled by the recursive `pyEq` below.
-/

/-- A JSON-like Python value as produced by `json.loads`: the wire-level data
the metadata model decodes.  Objects are insertion-ordered association
lists. -/
inductive Json where
  | null : Json
  | bool (b : Bool) : Json
  | num (n : Int) : Json
  | str (s : String) : Json
  | arr (xs : List Json) : Json
  | obj (kvs : List (String × Json)) : Json
deriving Repr

/-- A Python dict with string keys: an insertion-ordered association list. -/
abbrev Dict := List (String × Json)

/-- `d[k]` lookup: first entry with the given key. -/
def dlookup (d : List (String × Json)) (k : String) : Option Json :=
  match d with
  | [] => none
  | (k2, v) :: rest => if k2 == k then some v else dlookup rest k

/-- Removal of a key, as performed by Python `dict.pop` / `del`. -/
def derase (d : List (String × Json)) (k : String) : List (String × Json) :=
  d.filter (fun kv => !(kv.1 == k))

/-- Python `d.pop(k)`: the value at `k` together with the dict as mutated by
the call; `none` models the `KeyError` raised for a missing key. -/
def dpop (d : Dict) (k : String) : Option (Json × Dict) :=
  match dlookup d k with
  | some v => some (v, derase d k)
  | none => none

/-- Python `d.pop(k, default)`: never fails, returns `default` when missing. -/
def dpopD (d : Dict) (k : String) (default : Json) : Json × Dict :=
  match dlookup d k with
  | some v => (v, derase d k)
  | none => (default, d)

/-- Iterated key removal: the dict left over after popping each key in
turn. -/
def derases (d : Dict) (ks : List String) : Dict :=
  ks.foldl derase d

/-- Python `d[k] = v`: replaces the value in place when the key is present
(position preserved), otherwise appends the new entry. -/
def dinsert (d : List (String × Json)) (k : String) (v : Json) :
    List (String × Json) :=
  match d with
  | [] => [(k, v)]
  | (k2, w) :: rest =>
    if k2 == k then (k2, v) :: rest else (k2, w) :: dinsert rest k v

/-- Python truthiness of a JSON value (`if x:`). -/
def truthy : Json → Bool
  | .null => false
  | .bool b => b
  | .num n => n != 0
  | .str s => !s.isEmpty
  | .arr xs => !xs.isEmpty
  | .obj kvs => !kvs.isEmpty

/-- Key distinctness of an association list (Python dicts never hold a key
twice). -/
def distinctKeys : List (String × Json) → Bool
  | [] => true
  | (k, _) :: rest => !(rest.any (fun kv => kv.1 == k)) && distinctKeys rest

/-- Key-set inclusion: every key of `d` is present in `d2`. -/
def dkeysSub (d d2 : List (String × Json)) : Bool :=
  d.all (fun kv => (dlookup d2 kv.1).isSome)

mutual

/-- Python `==` on JSON values: numbers, strings and booleans by value
(`True == 1` and `False == 0`, since Python `bool` is an `int` subtype),
lists element-wise in order, dicts by key set and per-key value equality,
ignoring insertion order. -/
def pyEq : Json → Json → Bool
  | .null, .null => true
  | .bool a, .bool b => a == b
  | .bool a, .num b => (if a then (1 : Int) else 0) == b
  | .num a, .bool b => a == (if b then (1 : Int) else 0)
  | .num a, .num b => a == b
  | .str a, .str b => a == b
  | .arr xs, .arr ys => pyEqList xs ys
  | .obj d1, .obj d2 => pyEqObj d1 d2 && dkeysSub d2 d1
  | _, _ => false

/-- Element-wise Python equality of two lists. -/
def pyEqList : List Json → List Json → Bool
  | [], [] => true
  | x :: xs, y :: ys => pyEq x y && pyEqList xs ys
  | _, _ => false

/-- One direction of Python dict equality: every entry of the first dict has a
Python-equal value in the second. -/
def pyEqObj : List (String × Json) → List (String × Json) → Bool
  | [], _ => true
  | (k, v) :: rest, d2 =>
    (match dlookup d2 k with
     | some w => pyEq v w
     | none => false) && pyEqObj rest d2

end

mutual

/-- Well-formedness of a wire value: every object has pairwise-distinct keys,
as is the case for anything produced by a JSON parser. -/
def wfJson : Json → Bool
  | .null => true
  | .bool _ => true
  | .num _ => true
  | .str _ => true
  | .arr xs => wfArr xs
  | .obj kvs => distinctKeys kvs && wfDict kvs

/-- All elements well-formed. -/
def wfArr : List Json → Bool
  | [] => true
  | x :: xs => wfJson x && wfArr xs

/-- All values well-formed. -/
def wfDict : List (String × Json) → Bool
  | [] => true
  | (_, v) :: rest => wfJson v && wfDict rest

end

/-- Generic association-list lookup (Python `d[k]` for non-Json values). -/
def alookup {α : Type} (d : List (String × α)) (k : String) : Option α :=
  match d with
  | [] => none
  | (k2, v) :: rest => if k2 == k then some v else alookup rest k

/-- Generic key removal (Python `del d[k]`). -/
def aerase {α : Type} (d : List (String × α)) (k : String) : List (String × α) :=
  d.filter (fun kv => !(kv.1 == k))

/-- Generic Python `d[k] = v`: replace in place or append. -/
def ainsert {α : Type} (d : List (String × α)) (k : String) (v : α) :
    List (String × α) :=
  match d with
  | [] => [(k, v)]
  | (k2, w) :: rest =>
    if k2 == k then (k2, v) :: rest else (k2, w) :: ainsert rest k v

/-- Python `set.add` on a set of strings.  A set's CONTENTS are modelled as a
duplicate-free list in insertion order (a canonical representation of the
contents only); CPython leaves the ITERATION order of a `set` unspecified and
hash-dependent, so every encoder that enumerates a set takes the iteration
order as an explicit collaborator parameter (see `Role.to_dict`). -/
def setAdd (xs : List String) (x : String) : List String :=
  if xs.contains x then xs else xs ++ [x]

/-- Duplicate-freedom of a list of strings (`len(set(xs)) == len(xs)`). -/
def strDistinct : List String → Bool
  | [] => true
  | x :: xs => !(xs.contains x) && strDistinct xs

/-- Decodes a JSON array of strings (the wire shape of a `keyids` list). -/
def asStrList : List Json → Option (List String)
  | [] => some []
  | .str s :: rest =>
    match asStrList rest with
    | some ss => some (s :: ss)
    | none => none
  | _ => none

/-!
## The time collaborator

Modelled from the spec: `tuf.formats.expiry_string_to_datetime` and Python
`datetime` live outside src/ (§4.2, §6 of the spec).  The spec fixes the wire
format to an ISO-8601 UTC timestamp with an explicit trailing Z, accepted
exactly; `Signed` re-renders a stored instant as `expires.isoformat() + "Z"`,
which reproduces exactly the accepted string.  We therefore model an instant
by its canonical rendered string; for the fixed-width zero-padded format,
lexicographic string comparison agrees with chronological order.
-/

/-- A UTC instant, identified by its canonical `YYYY-MM-DDTHH:MM:SSZ`
rendering. -/
structure Datetime where
  iso : String
deriving DecidableEq, Repr

/-- Shape check for `YYYY-MM-DDTHH:MM:SSZ`. -/
def isValidExpiryChars : List Char → Bool
  | [y1, y2, y3, y4, '-', m1, m2, '-', d1, d2, 'T',
     h1, h2, ':', n1, n2, ':', s1, s2, 'Z'] =>
    [y1, y2, y3, y4, m1, m2, d1, d2, h1, h2, n1, n2, s1, s2].all Char.isDigit
  | _ => false

/-- Modelled from the spec: parses the expiration wire string, accepting
exactly the fixed `Z`-designated ISO-8601 UTC format (§4.2). -/
def expiry_string_to_datetime (s : String) : Option Datetime :=
  if isValidExpiryChars s.toList then some ⟨s⟩ else none

/-- `expires.isoformat() + "Z"`: the canonical rendering of the instant. -/
def Datetime.isoformatZ (d : Datetime) : String := d.iso

/-- Chronological comparison (`a <= b`), lexicographic on the fixed-width
canonical strings. -/
def Datetime.le (a b : Datetime) : Bool := decide (a.iso ≤ b.iso)

/-!
## The metadata class model (`tuf/api/metadata.py`)

Every `from_dict` is translated state-passing: it returns the constructed
object together with the input dict as mutated by the call (Python pops the
recognized keys in place).  A `none` result models the exception
(`KeyError` / `ValueError` / `AttributeError` / `TypeError`) the Python code
raises.
-/

/-- `Key`: the public portion of a key (`metadata.py`). -/
structure Key where
  keytype : Json
  scheme : Json
  keyval : List (String × Json)
  unrecognized_fields : Dict
deriving Repr

/-- `Key.from_dict`: pops `keytype`, `scheme`, `keyval`; the constructor
rejects a `keyval` without a truthy `public` entry.  Whatever is left in the
dict becomes `unrecognized_fields`. -/
def Key.from_dict (d : Dict) : Option (Key × Dict) :=
  match dpop d "keytype" with
  | none => none
  | some (keytype, d1) =>
    match dpop d1 "scheme" with
    | none => none
    | some (scheme, d2) =>
      match dpop d2 "keyval" with
      | none => none
      | some (.obj keyval, d3) =>
        if truthy ((dlookup keyval "public").getD .null) then
          some ({ keytype := keytype, scheme := scheme, keyval := keyval,
                  unrecognized_fields := d3 }, d3)
        else none
      | some _ => none

/-- `Key.to_dict`. -/
def Key.to_dict (k : Key) : Dict :=
  [("keytype", k.keytype), ("scheme", k.scheme), ("keyval", .obj k.keyval)]
    ++ k.unrecognized_fields

/-- `Role`: authorized keyids plus threshold.  The Python constructor stores
`set(keyids)` after rejecting duplicates; we keep the duplicate-free list in
insertion order (see `setAdd`). -/
structure Role where
  keyids : List String
  threshold : Json
  unrecognized_fields : Dict
deriving Repr

/-- `Role.from_dict`: pops `keyids` and `threshold`; the constructor rejects a
keyid list with duplicates. -/
def Role.from_dict (d : Dict) : Option (Role × Dict) :=
  match dpop d "keyids" with
  | some (.arr kidJson, d1) =>
    match asStrList kidJson with
    | none => none
    | some kids =>
      match dpop d1 "threshold" with
      | none => none
      | some (threshold, d2) =>
        if strDistinct kids then
          some ({ keyids := kids, threshold := threshold,
                  unrecognized_fields := d2 }, d2)
        else none
  | _ => none

/-- `Role.to_dict`.  The source emits `list(self.keyids)`, enumerating a
CPython set whose iteration order is hash-dependent and unspecified; the
enumeration is therefore an explicit parameter `set_iter`, mapping the set's
stored contents to the list of its elements in iteration order (any
permutation of the contents is a possible behaviour of the program). -/
def Role.to_dict (set_iter : List String → List String) (r : Role) : Dict :=
  [("keyids", .arr ((set_iter r.keyids).map .str)),
   ("threshold", r.threshold)]
    ++ r.unrecognized_fields

/-- `DelegatedRole`: a `Role` plus name, terminating flag and optional path
scoping.  `paths` / `path_hash_prefixes` hold the raw popped wire value
(Python keeps `None` — i.e. JSON null — when the field is absent). -/
structure DelegatedRole where
  name : Json
  keyids : List String
  threshold : Json
  terminating : Json
  paths : Json
  path_hash_prefixes : Json
  unrecognized_fields : Dict
deriving Repr

/-- `DelegatedRole.from_dict`: pops the four mandatory fields and the two
optional path fields (default `None`); the constructor rejects duplicate
keyids and the case where both path fields are truthy. -/
def DelegatedRole.from_dict (d : Dict) : Option (DelegatedRole × Dict) :=
  match dpop d "name" with
  | none => none
  | some (name, d1) =>
    match dpop d1 "keyids" with
    | some (.arr kidJson, d2) =>
      match asStrList kidJson with
      | none => none
      | some kids =>
        match dpop d2 "threshold" with
        | none => none
        | some (threshold, d3) =>
          match dpop d3 "terminating" with
          | none => none
          | some (terminating, d4) =>
            let p5 := dpopD d4 "paths" .null
            let p6 := dpopD p5.2 "path_hash_prefixes" .null
            if strDistinct kids && !(truthy p5.1 && truthy p6.1) then
              some ({ name := name, keyids := kids, threshold := threshold,
                      terminating := terminating, paths := p5.1,
                      path_hash_prefixes := p6.1,
                      unrecognized_fields := p6.2 }, p6.2)
            else none
    | _ => none

/-- `DelegatedRole.to_dict`: `name` and `terminating` first, then the base
`Role` fields (`list(self.keyids)` enumerated by the hash-dependent set
iteration `set_iter`, as in `Role.to_dict`), then — conditionally on
truthiness — `paths`, else `path_hash_prefixes`. -/
def DelegatedRole.to_dict (set_iter : List String → List String)
    (r : DelegatedRole) : Dict :=
  [("name", r.name), ("terminating", r.terminating),
   ("keyids", .arr ((set_iter r.keyids).map .str)),
   ("threshold", r.threshold)]
    ++ r.unrecognized_fields
    ++ (if truthy r.paths then [("paths", r.paths)]
        else if truthy r.path_hash_prefixes then
          [("path_hash_prefixes", r.path_hash_prefixes)]
        else [])

/-- Decodes the `keys` map of a root or delegations record: every value must
itself decode as a key record. -/
def decodeKeys : List (String × Json) → Option (List (String × Key))
  | [] => some []
  | (kid, .obj kd) :: rest =>
    match Key.from_dict kd with
    | some (key, _) =>
      match decodeKeys rest with
      | some ks => some ((kid, key) :: ks)
      | none => none
    | none => none
  | _ => none

/-- Re-encodes a decoded key map. -/
def encodeKeys (ks : List (String × Key)) : List (String × Json) :=
  ks.map (fun kv => (kv.1, .obj kv.2.to_dict))

/-- Decodes the `roles` list of a delegations record. -/
def decodeDelegatedRoles : List Json → Option (List DelegatedRole)
  | [] => some []
  | .obj rd :: rest =>
    match DelegatedRole.from_dict rd with
    | some (role, _) =>
      match decodeDelegatedRoles rest with
      | some rs => some (role :: rs)
      | none => none
    | none => none
  | _ => none

/-- `Delegations`: key store plus ordered delegated-role list. -/
structure Delegations where
  keys : List (String × Key)
  roles : List DelegatedRole
  unrecognized_fields : Dict
deriving Repr

/-- `Delegations.from_dict`: pops `keys` (a map of key records) and `roles`
(a list of delegated-role records); both are mandatory. -/
def Delegations.from_dict (d : Dict) : Option (Delegations × Dict) :=
  match dpop d "keys" with
  | some (.obj kvs, d1) =>
    match decodeKeys kvs with
    | none => none
    | some keys =>
      match dpop d1 "roles" with
      | some (.arr rolesJson, d2) =>
        match decodeDelegatedRoles rolesJson with
        | none => none
        | some roles =>
          some ({ keys := keys, roles := roles,
                  unrecognized_fields := d2 }, d2)
      | _ => none
  | _ => none

/-- `Delegations.to_dict` (set iteration order passed through to the
delegated roles). -/
def Delegations.to_dict (set_iter : List String → List String)
    (dg : Delegations) : Dict :=
  [("keys", .obj (encodeKeys dg.keys)),
   ("roles", .arr (dg.roles.map (fun r => .obj (r.to_dict set_iter))))]
    ++ dg.unrecognized_fields

/-- The fields shared by every `Signed` payload (`Signed.__init__`). -/
structure CommonFields where
  version : Int
  spec_version : Json
  expires : Datetime
deriving Repr

/-- `Signed._common_fields_from_dict` plus the constructor validation: pops
`_type` (which must equal the class discriminant), `version` (an integer,
rejected by `Signed.__init__` unless `> 0`), `spec_version` and `expires`
(parsed by the time collaborator). -/
def common_fields_from_dict (signed_type : String) (d : Dict) :
    Option (CommonFields × Dict) :=
  match dpop d "_type" with
  | some (.str t, d1) =>
    if t == signed_type then
      match dpop d1 "version" with
      | some (.num version, d2) =>
        if 0 < version then
          match dpop d2 "spec_version" with
          | none => none
          | some (spec_version, d3) =>
            match dpop d3 "expires" with
            | some (.str es, d4) =>
              match expiry_string_to_datetime es with
              | some expires =>
                some ({ version := version, spec_version := spec_version,
                        expires := expires }, d4)
              | none => none
            | _ => none
        else none
      | _ => none
    else none
  | _ => none

/-- `Signed._common_fields_to_dict`: the four declared fields followed by the
unrecognized passthrough fields. -/
def common_fields_to_dict (signed_type : String) (c : CommonFields)
    (unrecognized : Dict) : Dict :=
  [("_type", .str signed_type), ("version", .num c.version),
   ("spec_version", c.spec_version), ("expires", .str c.expires.isoformatZ)]
    ++ unrecognized

/-- Decodes the `roles` map of a root record. -/
def decodeRoles : List (String × Json) → Option (List (String × Role))
  | [] => some []
  | (name, .obj rd) :: rest =>
    match Role.from_dict rd with
    | some (role, _) =>
      match decodeRoles rest with
      | some rs => some ((name, role) :: rs)
      | none => none
    | none => none
  | _ => none

/-- Re-encodes a decoded role map (set iteration order passed through). -/
def encodeRoles (set_iter : List String → List String)
    (rs : List (String × Role)) : List (String × Json) :=
  rs.map (fun kv => (kv.1, .obj (kv.2.to_dict set_iter)))

/-- `Root`: the trust anchor payload. -/
structure Root where
  common : CommonFields
  consistent_snapshot : Json
  keys : List (String × Key)
  roles : List (String × Role)
  unrecognized_fields : Dict
deriving Repr

/-- `Root.from_dict`. -/
def Root.from_dict (d : Dict) : Option (Root × Dict) :=
  match common_fields_from_dict "root" d with
  | none => none
  | some (c, d1) =>
    match dpop d1 "consistent_snapshot" with
    | none => none
    | some (cs, d2) =>
      match dpop d2 "keys" with
      | some (.obj kvs, d3) =>
        match decodeKeys kvs with
        | none => none
        | some keys =>
          match dpop d3 "roles" with
          | some (.obj rvs, d4) =>
            match decodeRoles rvs with
            | none => none
            | some roles =>
              some ({ common := c, consistent_snapshot := cs, keys := keys,
                      roles := roles, unrecognized_fields := d4 }, d4)
          | _ => none
      | _ => none

/-- `Root.to_dict`: the common fields, then `consistent_snapshot`, `keys` and
`roles` appended by `dict.update` (set iteration order passed through to the
roles). -/
def Root.to_dict (set_iter : List String → List String) (r : Root) : Dict :=
  common_fields_to_dict "root" r.common r.unrecognized_fields
    ++ [("consistent_snapshot", r.consistent_snapshot),
        ("keys", .obj (encodeKeys r.keys)),
        ("roles", .obj (encodeRoles set_iter r.roles))]

/-- `Root.add_key` (source signature: role name, keyid, key metadata): adds
the keyid to the role's key-id set and overwrites the key-store entry.  The
first component models a raised `KeyError` (unknown role), in which case the
returned state is the unmutated input. -/
def Root.add_key (r : Root) (role : String) (keyid : String)
    (key_metadata : Key) : Option Unit × Root :=
  match alookup r.roles role with
  | none => (some (), r)
  | some ri =>
    (none,
     { r with
       roles := ainsert r.roles role { ri with keyids := setAdd ri.keyids keyid },
       keys := ainsert r.keys keyid key_metadata })

/-- Does any role in the map reference the keyid? (`remove_key`'s scan). -/
def anyRoleHas (roles : List (String × Role)) (keyid : String) : Bool :=
  roles.any (fun kv => kv.2.keyids.contains keyid)

/-- The role after `keyids.remove(keyid)`. -/
def Role.withoutKeyid (ri : Role) (keyid : String) : Role :=
  { ri with keyids := ri.keyids.erase keyid }

/-- `Root.remove_key`: removes the keyid from the role's key-id set (raising
`KeyError` — the `some` error component — if the role is unknown or the keyid
is not on the role), then deletes the key-store entry unless some remaining
role still references the keyid.  `del self.keys[keyid]` itself raises
`KeyError` when the store lacks the entry — at that point the role has
already been mutated, which the returned state reflects. -/
def Root.remove_key (r : Root) (role : String) (keyid : String) :
    Option Unit × Root :=
  match alookup r.roles role with
  | none => (some (), r)
  | some ri =>
    if keyid ∈ ri.keyids then
      if anyRoleHas (ainsert r.roles role (ri.withoutKeyid keyid)) keyid then
        (none, { r with roles := ainsert r.roles role (ri.withoutKeyid keyid) })
      else if (alookup r.keys keyid).isSome then
        (none, { r with roles := ainsert r.roles role (ri.withoutKeyid keyid),
                        keys := aerase r.keys keyid })
      else
        (some (), { r with roles := ainsert r.roles role (ri.withoutKeyid keyid) })
    else (some (), r)

/-- `Timestamp`: a single pointer record to the snapshot document (held as the
raw popped `meta` value in this source version). -/
structure Timestamp where
  common : CommonFields
  meta : Json
  unrecognized_fields : Dict
deriving Repr

/-- `Timestamp.from_dict`. -/
def Timestamp.from_dict (d : Dict) : Option (Timestamp × Dict) :=
  match common_fields_from_dict "timestamp" d with
  | none => none
  | some (c, d1) =>
    match dpop d1 "meta" with
    | none => none
    | some (meta, d2) =>
      some ({ common := c, meta := meta, unrecognized_fields := d2 }, d2)

/-- `Timestamp.to_dict`. -/
def Timestamp.to_dict (t : Timestamp) : Dict :=
  common_fields_to_dict "timestamp" t.common t.unrecognized_fields
    ++ [("meta", t.meta)]

/-- The fileinfo dict built by `Timestamp.update` / `Snapshot.update`. -/
def metaFileinfo (version : Int) (length : Option Int) (hashes : Option Json) :
    Dict :=
  [("version", .num version)]
    ++ (match length with | some l => [("length", .num l)] | none => [])
    ++ (match hashes with | some h => [("hashes", h)] | none => [])

/-- `Timestamp.update`: wholesale-replaces the `snapshot.json` entry.  Fails
(`TypeError`, state unchanged) when `meta` is not a dict. -/
def Timestamp.update (t : Timestamp) (version : Int) (length : Option Int)
    (hashes : Option Json) : Option Unit × Timestamp :=
  match t.meta with
  | .obj m =>
    (none, { t with
      meta := .obj (dinsert m "snapshot.json" (.obj (metaFileinfo version length hashes))) })
  | _ => (some (), t)

/-- `Snapshot`: pointer records to the targets documents. -/
structure Snapshot where
  common : CommonFields
  meta : Json
  unrecognized_fields : Dict
deriving Repr

/-- `Snapshot.from_dict`. -/
def Snapshot.from_dict (d : Dict) : Option (Snapshot × Dict) :=
  match common_fields_from_dict "snapshot" d with
  | none => none
  | some (c, d1) =>
    match dpop d1 "meta" with
    | none => none
    | some (meta, d2) =>
      some ({ common := c, meta := meta, unrecognized_fields := d2 }, d2)

/-- `Snapshot.to_dict`. -/
def Snapshot.to_dict (s : Snapshot) : Dict :=
  common_fields_to_dict "snapshot" s.common s.unrecognized_fields
    ++ [("meta", s.meta)]

/-- `Snapshot.update`: inserts/overwrites the `{rolename}.json` entry. -/
def Snapshot.update (s : Snapshot) (rolename : String) (version : Int)
    (length : Option Int) (hashes : Option Json) : Option Unit × Snapshot :=
  match s.meta with
  | .obj m =>
    (none, { s with
      meta := .obj (dinsert m (rolename ++ ".json")
        (.obj (metaFileinfo version length hashes))) })
  | _ => (some (), s)

/-- The `delegations` attribute of a decoded `Targets`: either the parsed
`Delegations` object (the popped value was truthy) or the raw falsy popped
value (Python keeps `None`, `[]`, `{}`, … as-is). -/
inductive DelegOpt where
  | raw (v : Json) : DelegOpt
  | parsed (d : Delegations) : DelegOpt
deriving Repr

/-- `Targets`: target-file records plus optional delegations. -/
structure Targets where
  common : CommonFields
  targets : Json
  delegations : DelegOpt
  unrecognized_fields : Dict
deriving Repr

/-- `Targets.from_dict`: pops `targets`, then `delegations` with default
`None`; a truthy popped value must parse as a delegations record, a falsy one
is stored raw. -/
def Targets.from_dict (d : Dict) : Option (Targets × Dict) :=
  match common_fields_from_dict "targets" d with
  | none => none
  | some (c, d1) =>
    match dpop d1 "targets" with
    | none => none
    | some (targets, d2) =>
      let p := dpopD d2 "delegations" .null
      if truthy p.1 then
        match p.1 with
        | .obj dd =>
          match Delegations.from_dict dd with
          | some (dg, _) =>
            some ({ common := c, targets := targets,
                    delegations := .parsed dg,
                    unrecognized_fields := p.2 }, p.2)
          | none => none
        | _ => none
      else
        some ({ common := c, targets := targets, delegations := .raw p.1,
                unrecognized_fields := p.2 }, p.2)

/-- `Targets.to_dict`: emits `delegations` only when the attribute is truthy
(a parsed `Delegations` object always is; the raw stored value never is, the
raw-truthy branch below is unreachable from `Targets.from_dict`). -/
def Targets.to_dict (set_iter : List String → List String)
    (t : Targets) : Dict :=
  common_fields_to_dict "targets" t.common t.unrecognized_fields
    ++ [("targets", t.targets)]
    ++ (match t.delegations with
        | .parsed dg => [("delegations", .obj (dg.to_dict set_iter))]
        | .raw v => if truthy v then [("delegations", v)] else [])

/-- `Targets.update`: inserts/overwrites a target-file entry. -/
def Targets.update (t : Targets) (filename : String) (fileinfo : Json) :
    Option Unit × Targets :=
  match t.targets with
  | .obj m => (none, { t with targets := .obj (dinsert m filename fileinfo) })
  | _ => (some (), t)

/-- The closed union of the four payload types (`Signed` subclasses). -/
inductive SignedPayload where
  | root (r : Root) : SignedPayload
  | timestamp (t : Timestamp) : SignedPayload
  | snapshot (s : Snapshot) : SignedPayload
  | targets (t : Targets) : SignedPayload
deriving Repr

/-- The payload's expiration instant (`Signed.expires`). -/
def SignedPayload.expires : SignedPayload → Datetime
  | .root r => r.common.expires
  | .timestamp t => t.common.expires
  | .snapshot s => s.common.expires
  | .targets t => t.common.expires

/-- `Signed.is_expired`: `reference_time >= self.expires` (the no-argument
default, `datetime.utcnow()`, is outside the model). -/
def SignedPayload.is_expired (p : SignedPayload) (reference_time : Datetime) :
    Bool :=
  p.expires.le reference_time

/-- `signed.to_dict()`, dispatched over the union (set iteration order
passed to the role-carrying payloads). -/
def SignedPayload.to_dict (set_iter : List String → List String) :
    SignedPayload → Dict
  | .root r => r.to_dict set_iter
  | .timestamp t => t.to_dict
  | .snapshot s => s.to_dict
  | .targets t => t.to_dict set_iter

/-- Modelled from the spec: `securesystemslib.signer.Signature`, an external
collaborator (§6) carrying a key identifier and a signature value. -/
structure Signature where
  keyid : String
  sig : String
deriving DecidableEq, Repr

/-- Modelled from the spec: `Signature.from_dict` of the external signer
collaborator reads the `keyid` and `sig` entries of a wire signature
record. -/
def Signature.from_dict (d : Dict) : Option Signature :=
  match dlookup d "keyid", dlookup d "sig" with
  | some (.str keyid), some (.str sig) => some ⟨keyid, sig⟩
  | _, _ => none

/-- Modelled from the spec: `Signature.to_dict` of the external signer
collaborator. -/
def Signature.to_dict (s : Signature) : Dict :=
  [("keyid", .str s.keyid), ("sig", .str s.sig)]

/-- Decodes the wire `signatures` list: each element must be a signature
record. -/
def decodeSignatureList : List Json → Option (List Signature)
  | [] => some []
  | .obj sd :: rest =>
    match Signature.from_dict sd with
    | some s =>
      match decodeSignatureList rest with
      | some ss => some (s :: ss)
      | none => none
    | none => none
  | _ => none

/-- `Metadata`: a signed payload plus its list of detached signatures. -/
structure Metadata where
  signed : SignedPayload
  signatures : List Signature
deriving Repr

/-- The `_type`-keyed class dispatch inside `Metadata.from_dict`: builds the
matching payload variant from the popped `signed` dict. -/
def dispatchPayload (t : String) (sd : Dict) : Option SignedPayload :=
  if t == "targets" then
    (Targets.from_dict sd).map (fun p => SignedPayload.targets p.1)
  else if t == "snapshot" then
    (Snapshot.from_dict sd).map (fun p => SignedPayload.snapshot p.1)
  else if t == "timestamp" then
    (Timestamp.from_dict sd).map (fun p => SignedPayload.timestamp p.1)
  else if t == "root" then
    (Root.from_dict sd).map (fun p => SignedPayload.root p.1)
  else none

/-- `Metadata.from_dict`: reads `metadata["signed"]["_type"]` (without
popping) to dispatch, raising `ValueError` for an unrecognized discriminant;
then pops `signatures` and decodes each entry, then pops `signed` and decodes
it with the dispatched class.  Returns the object and the caller's dict as
mutated by the call. -/
def Metadata.from_dict (d : Dict) : Option (Metadata × Dict) :=
  match dlookup d "signed" with
  | some (.obj sd) =>
    match dlookup sd "_type" with
    | some (.str t) =>
      if t == "targets" || t == "snapshot" || t == "timestamp" ||
         t == "root" then
        match dpop d "signatures" with
        | some (.arr sigJson, d1) =>
          match decodeSignatureList sigJson with
          | none => none
          | some sigs =>
            match dpop d1 "signed" with
            | some (.obj sd2, d2) =>
              match dispatchPayload t sd2 with
              | some p => some ({ signed := p, signatures := sigs }, d2)
              | none => none
            | _ => none
        | _ => none
      else none
    | _ => none
  | _ => none

/-- `Metadata.to_dict`: signatures first, payload second. -/
def Metadata.to_dict (set_iter : List String → List String)
    (m : Metadata) : Dict :=
  [("signatures", .arr (m.signatures.map (fun s => .obj s.to_dict))),
   ("signed", .obj (m.signed.to_dict set_iter))]

/-- `Metadata.sign`: serializes the payload with the canonicalization
collaborator, invokes the signer (whose failure — `none` — leaves the
signature list untouched), then appends the produced signature or replaces
the whole list with it, and returns it. -/
def Metadata.sign (m : Metadata) (signer : String → Option Signature)
    (append : Bool) (signed_serializer : SignedPayload → String) :
    Option Signature × Metadata :=
  match signer (signed_serializer m.signed) with
  | none => (none, m)
  | some signature =>
    (some signature,
     { m with signatures :=
        if append then m.signatures ++ [signature] else [signature] })

/-- A public key as passed to `Metadata.verify` (a securesystemslib-style
key mapping; the core itself reads only `key["keyid"]` and hands the rest to
the verification primitive). -/
structure PubKey where
  keyid : String
  material : Json
deriving Repr

/-- The outcome of the external `verify_signature` primitive: a verdict, or a
raised crypto-library exception (`CryptoError`, `UnsupportedAlgorithmError`,
`FormatError`, …) identified by name. -/
inductive CryptoResult where
  | ok (b : Bool) : CryptoResult
  | exn (e : String) : CryptoResult
deriving DecidableEq, Repr

/-- What `Metadata.verify` surfaces to its caller: the core's own
`tuf.exceptions.Error` (zero or several candidate signatures), or a raw
crypto-library exception propagating through unhandled. -/
inductive VerifyError where
  | tufError (msg : String) : VerifyError
  | cryptoError (e : String) : VerifyError
deriving DecidableEq, Repr

/-- `Metadata.verify`: filters the signature list by the key's keyid, raises
`tuf.exceptions.Error` for zero or more than one match, then calls the
external `verify_signature` primitive on the single match — whose exceptions
are not caught. -/
def Metadata.verify (m : Metadata) (key : PubKey)
    (verify_signature : PubKey → Signature → String → CryptoResult)
    (signed_serializer : SignedPayload → String) : Except VerifyError Bool :=
  let sigs_for_keyid := m.signatures.filter (fun s => s.keyid == key.keyid)
  if sigs_for_keyid.isEmpty then
    .error (.tufError ("no signature for key " ++ key.keyid ++ "."))
  else if 1 < sigs_for_keyid.length then
    .error (.tufError "multiple signatures found for key, not sure which one to verify.")
  else
    match sigs_for_keyid.head? with
    | some s =>
      match verify_signature key s (signed_serializer m.signed) with
      | .ok b => .ok b
      | .exn e => .error (.cryptoError e)
    | none => .error (.tufError "unreachable")

/-!
## Round-trip side conditions (C2)

`DelegatedRole.to_dict` emits `paths` / `path_hash_prefixes` only when
truthy, and `Targets.to_dict` emits `delegations` only when truthy, so a
present-but-falsy optional field is dropped on re-encoding.  The predicates
below say that every such conditionally-emitted field, when present in the
wire record, is truthy.
-/

/-- The field, when present, is truthy. -/
def optFieldOk (d : Dict) (k : String) : Bool :=
  match dlookup d k with
  | none => true
  | some v => truthy v

/-- Both optional path fields of a delegated-role record are absent or
truthy. -/
def drRecordOk (v : Json) : Bool :=
  match v with
  | .obj rd => optFieldOk rd "paths" && optFieldOk rd "path_hash_prefixes"
  | _ => true

/-- Every role record inside a delegations record is `drRecordOk`. -/
def delegationsRecordOk (v : Json) : Bool :=
  match v with
  | .obj dd =>
    (match dlookup dd "roles" with
     | some (.arr rs) => rs.all drRecordOk
     | _ => true)
  | _ => true

/-- The targets record's `delegations` field, when present, is truthy, and
its role records are `drRecordOk`. -/
def targetsRecordOk (d : Dict) : Bool :=
  optFieldOk d "delegations" &&
  (match dlookup d "delegations" with
   | some v => delegationsRecordOk v
   | none => true)

/-- A targets wire record whose delegated role carries an empty `paths`
list: it decodes successfully, but the empty list is falsy, so re-encoding
drops the `paths` key. -/
def c2CounterDict : Dict :=
  [("_type", .str "targets"), ("version", .num 1),
   ("spec_version", .str "1.0.0"),
   ("expires", .str "2030-01-01T00:00:00Z"), ("targets", .obj []),
   ("delegations", .obj
     [("keys", .obj []),
      ("roles", .arr [.obj
        [("name", .str "a"), ("keyids", .arr []), ("threshold", .num 1),
         ("terminating", .bool false), ("paths", .arr [])]])])]

/-- A root wire record whose single role holds two keyids: a set-iteration
order other than insertion order (possible under CPython hash randomization)
re-encodes the `keyids` list permuted, breaking the order-sensitive Python
list equality of the round trip. -/
def c2KeyidsDict : Dict :=
  [("_type", .str "root"), ("version", .num 1),
   ("spec_version", .str "1.0.0"),
   ("expires", .str "2030-01-01T00:00:00Z"),
   ("consistent_snapshot", .bool true), ("keys", .obj []),
   ("roles", .obj [("root", .obj
     [("keyids", .arr [.str "a", .str "b"]), ("threshold", .num 1)])])]

/-!
## Association-list and well-formedness lemmas
-/

theorem derase_cons_drop (kv : String × Json) (rest : List (String × Json))
    (k : String) (hk : kv.1 = k) :
    derase (kv :: rest) k = derase rest k := by
  simp [derase, List.filter_cons, hk]

theorem derase_cons_keep (kv : String × Json) (rest : List (String × Json))
    (k : String) (hk : kv.1 ≠ k) :
    derase (kv :: rest) k = kv :: derase rest k := by
  simp [derase, List.filter_cons, hk]

theorem dlookup_derase (d : List (String × Json)) (k x : String) :
    dlookup (derase d k) x = if x = k then none else dlookup d x := by
  induction d with
  | nil => simp [derase, dlookup]
  | cons kv rest ih =>
    by_cases hk : kv.1 = k
    · rw [derase_cons_drop kv rest k hk, ih]
      by_cases hx : x = k
      · simp [hx]
      · rw [if_neg hx, if_neg hx, dlookup, if_neg]
        simp only [beq_iff_eq, hk]
        intro h
        exact hx h.symm
    · rw [derase_cons_keep kv rest k hk, dlookup, dlookup]
      by_cases hkx : kv.1 = x
      · have hxk : ¬(x = k) := fun h => hk (hkx.trans h)
        simp [hkx, hxk]
      · simp only [beq_iff_eq, hkx, if_false]
        exact ih

theorem dlookup_derase_self (d : List (String × Json)) (k : String) :
    dlookup (derase d k) k = none := by
  rw [dlookup_derase]
  simp

theorem dlookup_derase_ne (d : List (String × Json)) (k x : String)
    (h : x ≠ k) : dlookup (derase d k) x = dlookup d x := by
  rw [dlookup_derase, if_neg h]

theorem dpop_eq_some {d : Dict} {k : String} {v : Json} {d1 : Dict}
    (h : dpop d k = some (v, d1)) :
    dlookup d k = some v ∧ d1 = derase d k := by
  unfold dpop at h
  cases hl : dlookup d k with
  | none => rw [hl] at h; exact absurd h (by simp)
  | some w =>
    rw [hl] at h
    simp only [Option.some.injEq, Prod.mk.injEq] at h
    exact ⟨by rw [h.1], h.2.symm⟩


theorem dlookup_append (a b : Dict) (x : String) :
    dlookup (a ++ b) x =
      (match dlookup a x with
       | some v => some v
       | none => dlookup b x) := by
  induction a with
  | nil => simp [dlookup]
  | cons kv rest ih =>
    rw [List.cons_append, dlookup, dlookup]
    by_cases h : kv.1 == x
    · simp [h]
    · simp only [h, if_false]
      exact ih

theorem dlookup_mem {d : Dict} {k : String} {v : Json}
    (h : dlookup d k = some v) : (k, v) ∈ d := by
  induction d with
  | nil => exact absurd h (by simp [dlookup])
  | cons kv rest ih =>
    rw [dlookup] at h
    by_cases hk : kv.1 == k
    · rw [if_pos hk] at h
      cases h
      have hkk : kv.1 = k := by simpa using hk
      subst hkk
      rw [Prod.mk.eta]
      exact List.mem_cons_self kv rest
    · rw [if_neg hk] at h
      exact List.mem_cons_of_mem kv (ih h)

theorem isSome_dlookup_of_mem {d : Dict} {kv : String × Json}
    (h : kv ∈ d) : (dlookup d kv.1).isSome = true := by
  induction d with
  | nil => cases h
  | cons a rest ih =>
    rw [dlookup]
    by_cases ha : a.1 == kv.1
    · simp [ha]
    · rw [if_neg ha]
      cases List.mem_cons.mp h with
      | inl he => subst he; simp at ha
      | inr hm => exact ih hm

theorem dlookup_eq_of_mem_distinct {d : Dict} {kv : String × Json}
    (hd : distinctKeys d = true) (h : kv ∈ d) :
    dlookup d kv.1 = some kv.2 := by
  induction d with
  | nil => cases h
  | cons a rest ih =>
    rw [distinctKeys] at hd
    simp only [Bool.and_eq_true, Bool.not_eq_true] at hd
    rw [dlookup]
    cases List.mem_cons.mp h with
    | inl he => subst he; simp
    | inr hm =>
      by_cases ha : a.1 == kv.1
      · exfalso
        have hany : rest.any (fun kv2 => kv2.1 == a.1) = true := by
          refine List.any_eq_true.mpr ⟨kv, hm, ?_⟩
          simpa using (by simpa using ha : a.1 = kv.1).symm
        rw [hany] at hd
        exact absurd hd.1 (by simp)
      · rw [if_neg ha]
        exact ih hd.2 hm

theorem mem_derase {d : Dict} {k : String} {kv : String × Json}
    (h : kv ∈ derase d k) : kv ∈ d := by
  exact List.mem_of_mem_filter h

theorem mem_derases {d : Dict} {ks : List String} {kv : String × Json}
    (h : kv ∈ derases d ks) : kv ∈ d := by
  induction ks generalizing d with
  | nil => exact h
  | cons k rest ih =>
    have : kv ∈ derase d k := ih h
    exact mem_derase this

theorem dlookup_derases (d : Dict) (ks : List String) (x : String) :
    dlookup (derases d ks) x = if x ∈ ks then none else dlookup d x := by
  induction ks generalizing d with
  | nil => simp [derases]
  | cons k rest ih =>
    have hstep : derases d (k :: rest) = derases (derase d k) rest := rfl
    rw [hstep, ih, dlookup_derase]
    by_cases hx : x ∈ rest
    · simp [hx]
    · by_cases hk : x = k
      · simp [hx, hk]
      · simp [hx, hk]

theorem wfJson_obj_elim {kvs : List (String × Json)}
    (h : wfJson (.obj kvs) = true) :
    distinctKeys kvs = true ∧ wfDict kvs = true := by
  rw [wfJson] at h
  simp only [Bool.and_eq_true] at h
  exact h

theorem wfDict_value {kvs : List (String × Json)} {kv : String × Json}
    (h : wfDict kvs = true) (hm : kv ∈ kvs) : wfJson kv.2 = true := by
  induction kvs with
  | nil => cases hm
  | cons a rest ih =>
    cases a with
    | mk k v =>
      rw [wfDict] at h
      simp only [Bool.and_eq_true] at h
      rcases h with ⟨hv, hrest⟩
      cases List.mem_cons.mp hm with
      | inl he => subst he; exact hv
      | inr hm2 => exact ih hrest hm2

theorem wfArr_elem {xs : List Json} {x : Json}
    (h : wfArr xs = true) (hm : x ∈ xs) : wfJson x = true := by
  induction xs with
  | nil => cases hm
  | cons a rest ih =>
    rw [wfArr] at h
    simp only [Bool.and_eq_true] at h
    rcases h with ⟨ha, hrest⟩
    cases List.mem_cons.mp hm with
    | inl he => subst he; exact ha
    | inr hm2 => exact ih hrest hm2

theorem asStrList_eq {xs : List Json} {ss : List String}
    (h : asStrList xs = some ss) : xs = ss.map Json.str := by
  induction xs generalizing ss with
  | nil =>
    rw [asStrList] at h
    cases h
    rfl
  | cons a rest ih =>
    cases a with
    | str s =>
      rw [asStrList] at h
      cases hr : asStrList rest with
      | none => rw [hr] at h; exact absurd h (by simp)
      | some ss2 =>
        rw [hr] at h
        cases h
        simp [ih hr]
    | null => exact absurd h (by simp [asStrList])
    | bool b => exact absurd h (by simp [asStrList])
    | num n => exact absurd h (by simp [asStrList])
    | arr ys => exact absurd h (by simp [asStrList])
    | obj kvs2 => exact absurd h (by simp [asStrList])

/-!
## Sample values used by witnesses and counterexamples
-/

def sampleExpires : Datetime := ⟨"2030-01-01T00:00:00Z"⟩

def sampleCommon : CommonFields := ⟨1, .str "1.0.0", sampleExpires⟩

def sampleKey : Key := ⟨.str "ed25519", .str "ed25519",
  [("public", .str "abcd")], []⟩

/-- A root whose single role references keyid `k` that is absent from the key
store (constructible: `Root.from_dict` does not check that role-referenced
keyids exist in `keys`). -/
def sampleRoot0 : Root :=
  ⟨sampleCommon, .bool true, [], [("root", ⟨["k"], .num 1, []⟩)], []⟩

/-- A root where keyid `k` is referenced by two roles and present in the key
store. -/
def sampleRootB : Root :=
  ⟨sampleCommon, .bool true, [("k", sampleKey)],
   [("root", ⟨["k"], .num 1, []⟩), ("targets", ⟨["k"], .num 1, []⟩)], []⟩

def sampleTimestamp : Timestamp := ⟨sampleCommon, .obj [], []⟩

/-- A timestamp whose `meta` is not a dict: its `update` raises `TypeError`
on the item assignment, before any mutation. -/
def sampleTimestampRawMeta : Timestamp := ⟨sampleCommon, .null, []⟩

def sampleTimestampDict : Dict :=
  [("_type", .str "timestamp"), ("version", .num 1),
   ("spec_version", .str "1.0.0"),
   ("expires", .str "2030-01-01T00:00:00Z"), ("meta", .obj [])]

/-- A wire metadata record whose signature list holds two signatures with the
same keyid `k`. -/
def sampleDupSigDict : Dict :=
  [("signatures", .arr [.obj [("keyid", .str "k"), ("sig", .str "s1")],
                        .obj [("keyid", .str "k"), ("sig", .str "s2")]]),
   ("signed", .obj sampleTimestampDict)]

def sampleMeta1 : Metadata := ⟨.timestamp sampleTimestamp, [⟨"k", "s1"⟩]⟩

def constSerializer : SignedPayload → String := fun _ => "canonical-bytes"


def sampleMeta0 : Metadata := ⟨.timestamp sampleTimestamp, []⟩

def toySigner1 : String → Option Signature := fun _ => some ⟨"k1", "s1"⟩

def toySigner2 : String → Option Signature := fun _ => some ⟨"k2", "s2"⟩

def toyVerifier : PubKey → Signature → String → CryptoResult :=
  fun k s _ => .ok (s.keyid == k.keyid)


/-!
## Integrity records (C8)

Modelled from the spec: the `MetaFile` / `TargetFile` classes and their
`verify_length_and_hashes` method are not part of src/ in this source
version — only the test suite references them — so they are modelled from
spec §4.7: an optional expected length, an optional hash-algorithm→digest
map; a recorded length must match the byte count exactly; every recorded
digest must match the content's digest under that algorithm; an
unsupported or malformed algorithm label fails identically; both checks are
skipped when unset; every failure is the single
`LengthOrHashMismatchError` kind.  The hash collaborator is a function from
an algorithm label to an optional digest function (`none` models an
unsupported/malformed label).
-/

/-- The single integrity-mismatch error kind (spec §7). -/
inductive LengthOrHashMismatchError where
  | mk : LengthOrHashMismatchError
deriving DecidableEq, Repr

/-- Modelled from the spec: an integrity record for a metadata file. -/
structure MetaFile where
  version : Option Int
  length : Option Int
  hashes : Option (List (String × String))
deriving Repr

/-- Modelled from the spec: an integrity record for a target file. -/
structure TargetFile where
  length : Option Int
  hashes : Option (List (String × String))
deriving Repr

/-- Modelled from the spec: checks every recorded algorithm→digest pair
against the content, failing with the single mismatch kind on an
unsupported/malformed algorithm or a wrong digest. -/
def checkHashes (hashes : List (String × String))
    (hashFn : String → Option (List Nat → String)) (data : List Nat) :
    Except LengthOrHashMismatchError Unit :=
  match hashes with
  | [] => .ok ()
  | (alg, dig) :: rest =>
    match hashFn alg with
    | none => .error .mk
    | some h => if h data == dig then checkHashes rest hashFn data
                else .error .mk

/-- Modelled from the spec: `verify_length_and_hashes` over the record's
optional length and optional hash map — the length check first (skipped when
unset), then every recorded hash (skipped when unset). -/
def check_length_and_hashes (length : Option Int)
    (hashes : Option (List (String × String)))
    (hashFn : String → Option (List Nat → String)) (data : List Nat) :
    Except LengthOrHashMismatchError Unit :=
  match length with
  | some l =>
    if (data.length : Int) == l then
      match hashes with
      | none => .ok ()
      | some hs => checkHashes hs hashFn data
    else .error .mk
  | none =>
    match hashes with
    | none => .ok ()
    | some hs => checkHashes hs hashFn data

/-- `MetaFile.verify_length_and_hashes`. -/
def MetaFile.verify_length_and_hashes (f : MetaFile)
    (hashFn : String → Option (List Nat → String)) (data : List Nat) :
    Except LengthOrHashMismatchError Unit :=
  check_length_and_hashes f.length f.hashes hashFn data

/-- `TargetFile.verify_length_and_hashes`. -/
def TargetFile.verify_length_and_hashes (f : TargetFile)
    (hashFn : String → Option (List Nat → String)) (data : List Nat) :
    Except LengthOrHashMismatchError Unit :=
  check_length_and_hashes f.length f.hashes hashFn data


/-!
## Decoder inversion lemmas

Each `from_dict` success is characterized by lookups in the original dict
plus the shape of the residual (the caller's dict after the call).
-/

theorem key_from_dict_spec {d : Dict} {k : Key} {rest : Dict}
    (h : Key.from_dict d = some (k, rest)) :
    dlookup d "keytype" = some k.keytype ∧
    dlookup d "scheme" = some k.scheme ∧
    dlookup d "keyval" = some (.obj k.keyval) ∧
    truthy ((dlookup k.keyval "public").getD .null) = true ∧
    rest = derases d ["keytype", "scheme", "keyval"] ∧
    k.unrecognized_fields = rest := by
  cases h1 : dpop d "keytype" with
  | none => simp [Key.from_dict, h1] at h
  | some p1 =>
    obtain ⟨kt, d1⟩ := p1
    cases h2 : dpop d1 "scheme" with
    | none => simp [Key.from_dict, h1, h2] at h
    | some p2 =>
      obtain ⟨sc, d2⟩ := p2
      cases h3 : dpop d2 "keyval" with
      | none => simp [Key.from_dict, h1, h2, h3] at h
      | some p3 =>
        obtain ⟨kvv, d3⟩ := p3
        obtain ⟨hl1, hd1⟩ := dpop_eq_some h1
        obtain ⟨hl2, hd2⟩ := dpop_eq_some h2
        obtain ⟨hl3, hd3⟩ := dpop_eq_some h3
        cases kvv with
        | null => simp [Key.from_dict, h1, h2, h3] at h
        | bool b => simp [Key.from_dict, h1, h2, h3] at h
        | num n => simp [Key.from_dict, h1, h2, h3] at h
        | str st => simp [Key.from_dict, h1, h2, h3] at h
        | arr xs => simp [Key.from_dict, h1, h2, h3] at h
        | obj keyval =>
          simp only [Key.from_dict, h1, h2, h3] at h
          by_cases ht : truthy ((dlookup keyval "public").getD .null) = true
          · rw [if_pos ht] at h
            simp only [Option.some.injEq, Prod.mk.injEq] at h
            obtain ⟨hk, hrest⟩ := h
            subst hk
            subst hrest
            have e2 : dlookup d "scheme" = some sc := by
              rw [← hl2, hd1, dlookup_derase_ne]
              decide
            have e3 : dlookup d "keyval" = some (.obj keyval) := by
              rw [← hl3, hd2, hd1, dlookup_derase_ne, dlookup_derase_ne]
              · decide
              · decide
            have erest : d3 = derases d ["keytype", "scheme", "keyval"] := by
              rw [hd3, hd2, hd1]
              rfl
            exact ⟨hl1, e2, e3, ht, erest, rfl⟩
          · rw [if_neg ht] at h
            exact absurd h (by simp)

theorem derase_eq_self_of_none {d : Dict} {k : String}
    (h : dlookup d k = none) : derase d k = d := by
  induction d with
  | nil => rfl
  | cons kv rest ih =>
    rw [dlookup] at h
    by_cases hk : kv.1 == k
    · rw [if_pos hk] at h
      exact absurd h (by simp)
    · rw [if_neg hk] at h
      rw [derase_cons_keep kv rest k (by simpa using hk), ih h]

theorem dpopD_spec (d : Dict) (k : String) (dv : Json) :
    dpopD d k dv = ((dlookup d k).getD dv, derase d k) := by
  unfold dpopD
  cases h : dlookup d k with
  | some v => simp
  | none => simp [derase_eq_self_of_none h]

theorem expiry_spec {s : String} {dt : Datetime}
    (h : expiry_string_to_datetime s = some dt) :
    dt.iso = s ∧ isValidExpiryChars s.toList = true := by
  unfold expiry_string_to_datetime at h
  by_cases hv : isValidExpiryChars s.toList = true
  · rw [if_pos hv] at h
    cases h
    exact ⟨rfl, hv⟩
  · rw [if_neg hv] at h
    exact absurd h (by simp)

theorem role_from_dict_spec {d : Dict} {r : Role} {rest : Dict}
    (h : Role.from_dict d = some (r, rest)) :
    dlookup d "keyids" = some (.arr (r.keyids.map .str)) ∧
    dlookup d "threshold" = some r.threshold ∧
    strDistinct r.keyids = true ∧
    rest = derases d ["keyids", "threshold"] ∧
    r.unrecognized_fields = rest := by
  cases h1 : dpop d "keyids" with
  | none => simp [Role.from_dict, h1] at h
  | some p1 =>
    obtain ⟨kj, d1⟩ := p1
    obtain ⟨hl1, hd1⟩ := dpop_eq_some h1
    cases kj with
    | null => simp [Role.from_dict, h1] at h
    | bool b => simp [Role.from_dict, h1] at h
    | num n => simp [Role.from_dict, h1] at h
    | str st => simp [Role.from_dict, h1] at h
    | obj kvs => simp [Role.from_dict, h1] at h
    | arr kidJson =>
      cases h2 : asStrList kidJson with
      | none => simp [Role.from_dict, h1, h2] at h
      | some kids =>
        cases h3 : dpop d1 "threshold" with
        | none => simp [Role.from_dict, h1, h2, h3] at h
        | some p3 =>
          obtain ⟨thr, d2⟩ := p3
          obtain ⟨hl3, hd3⟩ := dpop_eq_some h3
          simp only [Role.from_dict, h1, h2, h3] at h
          by_cases hs : strDistinct kids = true
          · rw [if_pos hs] at h
            simp only [Option.some.injEq, Prod.mk.injEq] at h
            obtain ⟨hk, hrest⟩ := h
            subst hk
            subst hrest
            refine ⟨?_, ?_, hs, ?_, rfl⟩
            · rw [hl1, asStrList_eq h2]
            · rw [← hl3, hd1, dlookup_derase_ne]
              decide
            · rw [hd3, hd1]
              rfl
          · rw [if_neg hs] at h
            exact absurd h (by simp)

theorem delegated_role_from_dict_spec {d : Dict} {r : DelegatedRole}
    {rest : Dict} (h : DelegatedRole.from_dict d = some (r, rest)) :
    dlookup d "name" = some r.name ∧
    dlookup d "keyids" = some (.arr (r.keyids.map .str)) ∧
    dlookup d "threshold" = some r.threshold ∧
    dlookup d "terminating" = some r.terminating ∧
    r.paths = (dlookup d "paths").getD .null ∧
    r.path_hash_prefixes = (dlookup d "path_hash_prefixes").getD .null ∧
    strDistinct r.keyids = true ∧
    (truthy r.paths && truthy r.path_hash_prefixes) = false ∧
    rest = derases d ["name", "keyids", "threshold", "terminating",
      "paths", "path_hash_prefixes"] ∧
    r.unrecognized_fields = rest := by
  cases h1 : dpop d "name" with
  | none => simp [DelegatedRole.from_dict, h1] at h
  | some p1 =>
    obtain ⟨nm, d1⟩ := p1
    obtain ⟨hl1, hd1⟩ := dpop_eq_some h1
    cases h2 : dpop d1 "keyids" with
    | none => simp [DelegatedRole.from_dict, h1, h2] at h
    | some p2 =>
      obtain ⟨kj, d2⟩ := p2
      obtain ⟨hl2, hd2⟩ := dpop_eq_some h2
      cases kj with
      | null => simp [DelegatedRole.from_dict, h1, h2] at h
      | bool b => simp [DelegatedRole.from_dict, h1, h2] at h
      | num n => simp [DelegatedRole.from_dict, h1, h2] at h
      | str st => simp [DelegatedRole.from_dict, h1, h2] at h
      | obj kvs => simp [DelegatedRole.from_dict, h1, h2] at h
      | arr kidJson =>
        cases h3 : asStrList kidJson with
        | none => simp [DelegatedRole.from_dict, h1, h2, h3] at h
        | some kids =>
          cases h4 : dpop d2 "threshold" with
          | none => simp [DelegatedRole.from_dict, h1, h2, h3, h4] at h
          | some p4 =>
            obtain ⟨thr, d3⟩ := p4
            obtain ⟨hl4, hd4⟩ := dpop_eq_some h4
            cases h5 : dpop d3 "terminating" with
            | none => simp [DelegatedRole.from_dict, h1, h2, h3, h4, h5] at h
            | some p5 =>
              obtain ⟨tmg, d4⟩ := p5
              obtain ⟨hl5, hd5⟩ := dpop_eq_some h5
              simp only [DelegatedRole.from_dict, h1, h2, h3, h4, h5,
                dpopD_spec] at h
              by_cases hcond : (strDistinct kids &&
                  !(truthy ((dlookup d4 "paths").getD .null) &&
                    truthy ((dlookup (derase d4 "paths")
                      "path_hash_prefixes").getD .null))) = true
              · rw [if_pos hcond] at h
                simp only [Option.some.injEq, Prod.mk.injEq] at h
                obtain ⟨hk, hrest⟩ := h
                subst hk
                subst hrest
                simp only [Bool.and_eq_true, Bool.not_eq_true] at hcond
                obtain ⟨hdist, hpp⟩ := hcond
                have e2 : dlookup d "keyids" = some (.arr (kids.map .str)) := by
                  rw [← asStrList_eq h3, ← hl2, hd1, dlookup_derase_ne]
                  decide
                have e4 : dlookup d "threshold" = some thr := by
                  rw [← hl4, hd2, hd1, dlookup_derase_ne, dlookup_derase_ne]
                  · decide
                  · decide
                have e5 : dlookup d "terminating" = some tmg := by
                  rw [← hl5, hd4, hd2, hd1, dlookup_derase_ne,
                    dlookup_derase_ne, dlookup_derase_ne]
                  · decide
                  · decide
                  · decide
                have ed4 : d4 = derases d ["name", "keyids", "threshold",
                    "terminating"] := by
                  rw [hd5, hd4, hd2, hd1]
                  rfl
                have epaths : dlookup d4 "paths" = dlookup d "paths" := by
                  rw [ed4, dlookup_derases, if_neg (by decide)]
                have ephp : dlookup (derase d4 "paths")
                    "path_hash_prefixes" = dlookup d "path_hash_prefixes" := by
                  rw [dlookup_derase_ne _ _ _ (by decide), ed4,
                    dlookup_derases, if_neg (by decide)]
                refine ⟨hl1, e2, e4, e5, by rw [epaths], by rw [ephp],
                  hdist, ?_, ?_, rfl⟩
                · rw [epaths, ephp] at hpp
                  rw [epaths, ephp]
                  cases hx : (truthy ((dlookup d "paths").getD Json.null) &&
                      truthy ((dlookup d "path_hash_prefixes").getD
                        Json.null)) with
                  | false => rfl
                  | true =>
                    rw [hx] at hpp
                    exact absurd hpp (by decide)
                · rw [hd5, hd4, hd2, hd1]
                  rfl
              · rw [if_neg hcond] at h
                exact absurd h (by simp)

theorem common_fields_from_dict_spec {t : String} {d : Dict}
    {c : CommonFields} {rest : Dict}
    (h : common_fields_from_dict t d = some (c, rest)) :
    dlookup d "_type" = some (.str t) ∧
    dlookup d "version" = some (.num c.version) ∧
    0 < c.version ∧
    dlookup d "spec_version" = some c.spec_version ∧
    dlookup d "expires" = some (.str c.expires.iso) ∧
    isValidExpiryChars c.expires.iso.toList = true ∧
    rest = derases d ["_type", "version", "spec_version", "expires"] := by
  cases h1 : dpop d "_type" with
  | none => simp [common_fields_from_dict, h1] at h
  | some p1 =>
    obtain ⟨tv, d1⟩ := p1
    obtain ⟨hl1, hd1⟩ := dpop_eq_some h1
    cases tv with
    | null => simp [common_fields_from_dict, h1] at h
    | bool b => simp [common_fields_from_dict, h1] at h
    | num n => simp [common_fields_from_dict, h1] at h
    | arr xs => simp [common_fields_from_dict, h1] at h
    | obj kvs => simp [common_fields_from_dict, h1] at h
    | str t2 =>
      by_cases ht : (t2 == t) = true
      · have ht2 : t2 = t := by simpa using ht
        subst ht2
        cases h2 : dpop d1 "version" with
        | none => simp [common_fields_from_dict, h1, ht, h2] at h
        | some p2 =>
          obtain ⟨vv, d2⟩ := p2
          obtain ⟨hl2, hd2⟩ := dpop_eq_some h2
          cases vv with
          | null => simp [common_fields_from_dict, h1, ht, h2] at h
          | bool b => simp [common_fields_from_dict, h1, ht, h2] at h
          | str st => simp [common_fields_from_dict, h1, ht, h2] at h
          | arr xs => simp [common_fields_from_dict, h1, ht, h2] at h
          | obj kvs => simp [common_fields_from_dict, h1, ht, h2] at h
          | num version =>
            by_cases hv : 0 < version
            · cases h3 : dpop d2 "spec_version" with
              | none =>
                simp [common_fields_from_dict, h1, ht, h2, hv, h3] at h
              | some p3 =>
                obtain ⟨sv, d3⟩ := p3
                obtain ⟨hl3, hd3⟩ := dpop_eq_some h3
                cases h4 : dpop d3 "expires" with
                | none =>
                  simp [common_fields_from_dict, h1, ht, h2, hv, h3, h4] at h
                | some p4 =>
                  obtain ⟨ev, d4⟩ := p4
                  obtain ⟨hl4, hd4⟩ := dpop_eq_some h4
                  cases ev with
                  | null =>
                    simp [common_fields_from_dict, h1, ht, h2, hv, h3,
                      h4] at h
                  | bool b =>
                    simp [common_fields_from_dict, h1, ht, h2, hv, h3,
                      h4] at h
                  | num n =>
                    simp [common_fields_from_dict, h1, ht, h2, hv, h3,
                      h4] at h
                  | arr xs =>
                    simp [common_fields_from_dict, h1, ht, h2, hv, h3,
                      h4] at h
                  | obj kvs =>
                    simp [common_fields_from_dict, h1, ht, h2, hv, h3,
                      h4] at h
                  | str es =>
                    cases h5 : expiry_string_to_datetime es with
                    | none =>
                      simp [common_fields_from_dict, h1, ht, h2, hv, h3, h4,
                        h5] at h
                    | some expires =>
                      simp only [common_fields_from_dict, h1, ht, h2, h3, h4,
                        h5, if_pos hv, if_true, Option.some.injEq,
                        Prod.mk.injEq] at h
                      obtain ⟨hk, hrest⟩ := h
                      subst hk
                      subst hrest
                      obtain ⟨hiso, hvalid⟩ := expiry_spec h5
                      subst hiso
                      have e2 : dlookup d "version" = some (.num version) := by
                        rw [← hl2, hd1, dlookup_derase_ne _ _ _ (by decide)]
                      have e3 : dlookup d "spec_version" = some sv := by
                        rw [← hl3, hd2, hd1,
                          dlookup_derase_ne _ _ _ (by decide),
                          dlookup_derase_ne _ _ _ (by decide)]
                      have e4 : dlookup d "expires" =
                          some (.str expires.iso) := by
                        rw [← hl4, hd3, hd2, hd1,
                          dlookup_derase_ne _ _ _ (by decide),
                          dlookup_derase_ne _ _ _ (by decide),
                          dlookup_derase_ne _ _ _ (by decide)]
                      refine ⟨hl1, e2, hv, e3, e4, hvalid, ?_⟩
                      rw [hd4, hd3, hd2, hd1]
                      rfl
            · simp [common_fields_from_dict, h1, ht, h2, hv] at h
      · simp [common_fields_from_dict, h1, ht] at h

theorem metadata_from_dict_residual {d : Dict} {m : Metadata} {rest : Dict}
    (h : Metadata.from_dict d = some (m, rest)) :
    rest = derases d ["signatures", "signed"] := by
  unfold Metadata.from_dict at h
  cases hs : dlookup d "signed" with
  | none => rw [hs] at h; exact absurd h (by simp)
  | some sv =>
    rw [hs] at h
    cases sv with
    | null => exact absurd h (by simp)
    | bool b => exact absurd h (by simp)
    | num n => exact absurd h (by simp)
    | str st => exact absurd h (by simp)
    | arr xs => exact absurd h (by simp)
    | obj sd =>
      cases htv : dlookup sd "_type" with
      | none =>
        simp only [htv] at h
        exact absurd h (by simp)
      | some tv =>
        simp only [htv] at h
        cases tv with
        | null => exact absurd h (by simp)
        | bool b => exact absurd h (by simp)
        | num n => exact absurd h (by simp)
        | arr xs => exact absurd h (by simp)
        | obj kvs => exact absurd h (by simp)
        | str t =>
          dsimp only at h
          by_cases hknown : (t == "targets" || t == "snapshot" ||
              t == "timestamp" || t == "root") = true
          · rw [if_pos hknown] at h
            cases h1 : dpop d "signatures" with
            | none => rw [h1] at h; exact absurd h (by simp)
            | some p1 =>
              obtain ⟨sigv, d1⟩ := p1
              obtain ⟨hl1, hd1⟩ := dpop_eq_some h1
              rw [h1] at h
              cases sigv with
              | null => exact absurd h (by simp)
              | bool b => exact absurd h (by simp)
              | num n => exact absurd h (by simp)
              | str st => exact absurd h (by simp)
              | obj kvs => exact absurd h (by simp)
              | arr sigJson =>
                cases h2 : decodeSignatureList sigJson with
                | none =>
                  simp only [h2] at h
                  exact absurd h (by simp)
                | some sigs =>
                  simp only [h2] at h
                  cases h3 : dpop d1 "signed" with
                  | none => rw [h3] at h; exact absurd h (by simp)
                  | some p3 =>
                    obtain ⟨sv2, d2⟩ := p3
                    obtain ⟨hl3, hd3⟩ := dpop_eq_some h3
                    rw [h3] at h
                    cases sv2 with
                    | null => exact absurd h (by simp)
                    | bool b => exact absurd h (by simp)
                    | num n => exact absurd h (by simp)
                    | str st => exact absurd h (by simp)
                    | arr xs => exact absurd h (by simp)
                    | obj sd2 =>
                      cases h4 : dispatchPayload t sd2 with
                      | none =>
                        simp only [h4] at h
                        exact absurd h (by simp)
                      | some p =>
                        simp only [h4, Option.some.injEq,
                          Prod.mk.injEq] at h
                        obtain ⟨hm, hrest⟩ := h
                        subst hrest
                        rw [hd3, hd1]
                        rfl
          · rw [if_neg hknown] at h
            exact absurd h (by simp)

/-!
## Python-equality lemmas
-/

theorem pyEq_null : pyEq .null .null = true := by simp [pyEq]

theorem pyEq_bool (a b : Bool) : pyEq (.bool a) (.bool b) = (a == b) := by
  simp [pyEq]

theorem pyEq_num (a b : Int) : pyEq (.num a) (.num b) = (a == b) := by
  simp [pyEq]

theorem pyEq_str (a b : String) : pyEq (.str a) (.str b) = (a == b) := by
  simp [pyEq]

theorem pyEq_arr_eq (xs ys : List Json) :
    pyEq (.arr xs) (.arr ys) = pyEqList xs ys := by
  simp [pyEq]

theorem pyEq_obj_eq (a b : List (String × Json)) :
    pyEq (.obj a) (.obj b) = (pyEqObj a b && dkeysSub b a) := by
  simp [pyEq]

theorem pyEqList_cons_eq (x y : Json) (xs ys : List Json) :
    pyEqList (x :: xs) (y :: ys) = (pyEq x y && pyEqList xs ys) := by
  simp [pyEqList]

theorem pyEqObj_intro {d1 d2 : List (String × Json)}
    (h : ∀ kv, kv ∈ d1 →
      ∃ w, dlookup d2 kv.1 = some w ∧ pyEq kv.2 w = true) :
    pyEqObj d1 d2 = true := by
  induction d1 with
  | nil => simp [pyEqObj]
  | cons kv rest ih =>
    obtain ⟨w, hw, hp⟩ := h kv (List.mem_cons_self kv rest)
    cases kv with
    | mk k v =>
      simp only [pyEqObj, hw]
      rw [hp, Bool.true_and]
      exact ih (fun kv2 hm => h kv2 (List.mem_cons_of_mem (k, v) hm))

theorem dkeysSub_intro {d d2 : List (String × Json)}
    (h : ∀ kv, kv ∈ d → (dlookup d2 kv.1).isSome = true) :
    dkeysSub d d2 = true := by
  unfold dkeysSub
  exact List.all_eq_true.mpr (fun kv hm => h kv hm)

theorem pyEq_obj_intro {d1 d2 : List (String × Json)}
    (h1 : ∀ kv, kv ∈ d1 →
      ∃ w, dlookup d2 kv.1 = some w ∧ pyEq kv.2 w = true)
    (h2 : ∀ kv, kv ∈ d2 → (dlookup d1 kv.1).isSome = true) :
    pyEq (.obj d1) (.obj d2) = true := by
  rw [pyEq_obj_eq, pyEqObj_intro h1, dkeysSub_intro h2]
  rfl

mutual

theorem pyEq_refl : ∀ (v : Json), wfJson v = true → pyEq v v = true
  | .null, _ => pyEq_null
  | .bool b, _ => by simp [pyEq_bool]
  | .num n, _ => by simp [pyEq_num]
  | .str s, _ => by simp [pyEq_str]
  | .arr xs, h => by
    rw [pyEq_arr_eq]
    rw [wfJson] at h
    exact pyEqList_refl xs h
  | .obj kvs, h => by
    have hd := wfJson_obj_elim h
    refine pyEq_obj_intro (fun kv hm => ?_) (fun kv hm => ?_)
    · exact ⟨kv.2, dlookup_eq_of_mem_distinct hd.1 hm,
        pyEqDict_refl_entries kvs hd.2 kv hm⟩
    · exact isSome_dlookup_of_mem hm

theorem pyEqList_refl : ∀ (xs : List Json), wfArr xs = true →
    pyEqList xs xs = true
  | [], _ => by simp [pyEqList]
  | x :: xs, h => by
    rw [wfArr] at h
    simp only [Bool.and_eq_true] at h
    rw [pyEqList_cons_eq, pyEq_refl x h.1, pyEqList_refl xs h.2]
    rfl

theorem pyEqDict_refl_entries : ∀ (kvs : List (String × Json)),
    wfDict kvs = true → ∀ kv, kv ∈ kvs → pyEq kv.2 kv.2 = true
  | [], _, _, hm => absurd hm (by simp)
  | (k, v) :: rest, h, kv, hm => by
    rw [wfDict] at h
    simp only [Bool.and_eq_true] at h
    cases List.mem_cons.mp hm with
    | inl he => subst he; exact pyEq_refl v h.1
    | inr hm2 => exact pyEqDict_refl_entries rest h.2 kv hm2

end

/-!
## Round-trip lemmas (C2)
-/

theorem key_roundtrip {d : Dict} {k : Key} {rest : Dict}
    (hwf : wfJson (.obj d) = true)
    (h : Key.from_dict d = some (k, rest)) :
    pyEq (.obj k.to_dict) (.obj d) = true := by
  obtain ⟨e1, e2, e3, _, hrest, hunrec⟩ := key_from_dict_spec h
  obtain ⟨hdist, hdict⟩ := wfJson_obj_elim hwf
  have hwfval : ∀ kv2 : String × Json, kv2 ∈ d → wfJson kv2.2 = true :=
    fun kv2 hm => wfDict_value hdict hm
  refine pyEq_obj_intro (fun kv hm => ?_) (fun kv hm => ?_)
  · rw [Key.to_dict] at hm
    rcases List.mem_append.mp hm with hm1 | hm2
    · simp only [List.mem_cons, List.not_mem_nil, or_false] at hm1
      rcases hm1 with rfl | rfl | rfl
      · exact ⟨k.keytype, e1, pyEq_refl _ (hwfval _ (dlookup_mem e1))⟩
      · exact ⟨k.scheme, e2, pyEq_refl _ (hwfval _ (dlookup_mem e2))⟩
      · exact ⟨.obj k.keyval, e3, pyEq_refl _ (hwfval _ (dlookup_mem e3))⟩
    · have hmd : kv ∈ d := by
        rw [hunrec, hrest] at hm2
        exact mem_derases hm2
      exact ⟨kv.2, dlookup_eq_of_mem_distinct hdist hmd,
        pyEq_refl _ (hwfval _ hmd)⟩
  · rw [Key.to_dict, dlookup_append]
    cases hd1 : dlookup [("keytype", k.keytype), ("scheme", k.scheme),
        ("keyval", .obj k.keyval)] kv.1 with
    | some v => simp
    | none =>
      simp only [dlookup, beq_iff_eq] at hd1
      by_cases q1 : "keytype" = kv.1
      · rw [if_pos q1] at hd1; exact absurd hd1 (by simp)
      · rw [if_neg q1] at hd1
        by_cases q2 : "scheme" = kv.1
        · rw [if_pos q2] at hd1; exact absurd hd1 (by simp)
        · rw [if_neg q2] at hd1
          by_cases q3 : "keyval" = kv.1
          · rw [if_pos q3] at hd1; exact absurd hd1 (by simp)
          · simp only []
            rw [hunrec, hrest, dlookup_derases, if_neg]
            · exact isSome_dlookup_of_mem hm
            · simp only [List.mem_cons, List.not_mem_nil, or_false]
              push_neg
              exact ⟨fun hq => q1 hq.symm, fun hq => q2 hq.symm,
                fun hq => q3 hq.symm⟩

theorem role_roundtrip (set_iter : List String → List String)
    (hord : ∀ xs : List String, set_iter xs = xs)
    {d : Dict} {r : Role} {rest : Dict}
    (hwf : wfJson (.obj d) = true)
    (h : Role.from_dict d = some (r, rest)) :
    pyEq (.obj (r.to_dict set_iter)) (.obj d) = true := by
  obtain ⟨e1, e2, _, hrest, hunrec⟩ := role_from_dict_spec h
  obtain ⟨hdist, hdict⟩ := wfJson_obj_elim hwf
  have hwfval : ∀ kv2 : String × Json, kv2 ∈ d → wfJson kv2.2 = true :=
    fun kv2 hm => wfDict_value hdict hm
  refine pyEq_obj_intro (fun kv hm => ?_) (fun kv hm => ?_)
  · rw [Role.to_dict, hord] at hm
    rcases List.mem_append.mp hm with hm1 | hm2
    · simp only [List.mem_cons, List.not_mem_nil, or_false] at hm1
      rcases hm1 with rfl | rfl
      · exact ⟨_, e1, pyEq_refl _ (hwfval _ (dlookup_mem e1))⟩
      · exact ⟨r.threshold, e2, pyEq_refl _ (hwfval _ (dlookup_mem e2))⟩
    · have hmd : kv ∈ d := by
        rw [hunrec, hrest] at hm2
        exact mem_derases hm2
      exact ⟨kv.2, dlookup_eq_of_mem_distinct hdist hmd,
        pyEq_refl _ (hwfval _ hmd)⟩
  · rw [Role.to_dict, hord, dlookup_append]
    cases hd1 : dlookup [("keyids", .arr (r.keyids.map .str)),
        ("threshold", r.threshold)] kv.1 with
    | some v => simp
    | none =>
      simp only [dlookup, beq_iff_eq] at hd1
      by_cases q1 : "keyids" = kv.1
      · rw [if_pos q1] at hd1; exact absurd hd1 (by simp)
      · rw [if_neg q1] at hd1
        by_cases q2 : "threshold" = kv.1
        · rw [if_pos q2] at hd1; exact absurd hd1 (by simp)
        · simp only []
          rw [hunrec, hrest, dlookup_derases, if_neg]
          · exact isSome_dlookup_of_mem hm
          · simp only [List.mem_cons, List.not_mem_nil, or_false]
            push_neg
            exact ⟨fun hq => q1 hq.symm, fun hq => q2 hq.symm⟩

theorem decodeKeys_entries {kvs : List (String × Json)}
    {ks : List (String × Key)} (h : decodeKeys kvs = some ks) :
    (∀ a, a ∈ ks → ∃ kd rest2, (a.1, Json.obj kd) ∈ kvs ∧
      Key.from_dict kd = some (a.2, rest2)) ∧
    (∀ b, b ∈ kvs → ∃ key, (b.1, key) ∈ ks) := by
  induction kvs generalizing ks with
  | nil =>
    rw [decodeKeys] at h
    cases h
    exact ⟨fun a ha => absurd ha (by simp), fun b hb => absurd hb (by simp)⟩
  | cons kv rest ih =>
    obtain ⟨kid, kdv⟩ := kv
    cases kdv with
    | null => simp [decodeKeys] at h
    | bool b => simp [decodeKeys] at h
    | num n => simp [decodeKeys] at h
    | str st => simp [decodeKeys] at h
    | arr xs => simp [decodeKeys] at h
    | obj kd =>
      cases h1 : Key.from_dict kd with
      | none => simp [decodeKeys, h1] at h
      | some p1 =>
        obtain ⟨key, rest2⟩ := p1
        cases h2 : decodeKeys rest with
        | none => simp [decodeKeys, h1, h2] at h
        | some ks2 =>
          simp only [decodeKeys, h1, h2, Option.some.injEq] at h
          subst h
          obtain ⟨ih1, ih2⟩ := ih h2
          constructor
          · intro a ha
            cases List.mem_cons.mp ha with
            | inl he =>
              subst he
              exact ⟨kd, rest2, List.mem_cons_self _ _, h1⟩
            | inr hm =>
              obtain ⟨kd2, r2, hmem, hfd⟩ := ih1 a hm
              exact ⟨kd2, r2, List.mem_cons_of_mem _ hmem, hfd⟩
          · intro b hb
            cases List.mem_cons.mp hb with
            | inl he =>
              subst he
              exact ⟨key, List.mem_cons_self _ _⟩
            | inr hm =>
              obtain ⟨key2, hmem⟩ := ih2 b hm
              exact ⟨key2, List.mem_cons_of_mem _ hmem⟩

theorem keysmap_roundtrip {kvs : List (String × Json)}
    {ks : List (String × Key)}
    (hwf : wfJson (.obj kvs) = true) (h : decodeKeys kvs = some ks) :
    pyEq (.obj (encodeKeys ks)) (.obj kvs) = true := by
  obtain ⟨hdist, hdict⟩ := wfJson_obj_elim hwf
  obtain ⟨h1, h2⟩ := decodeKeys_entries h
  refine pyEq_obj_intro (fun kv hm => ?_) (fun kv hm => ?_)
  · rw [encodeKeys] at hm
    obtain ⟨a, ham, hae⟩ := List.mem_map.mp hm
    obtain ⟨kd, rest2, hmem, hfd⟩ := h1 a ham
    subst hae
    refine ⟨.obj kd, dlookup_eq_of_mem_distinct hdist hmem, ?_⟩
    exact key_roundtrip (wfDict_value hdict hmem) hfd
  · obtain ⟨key, hmem⟩ := h2 kv hm
    have hm2 : (kv.1, Json.obj key.to_dict) ∈ encodeKeys ks := by
      rw [encodeKeys]
      exact List.mem_map.mpr ⟨(kv.1, key), hmem, rfl⟩
    exact @isSome_dlookup_of_mem (encodeKeys ks) (kv.1, Json.obj key.to_dict)
      hm2

theorem decodeRoles_entries {kvs : List (String × Json)}
    {rs : List (String × Role)} (h : decodeRoles kvs = some rs) :
    (∀ a, a ∈ rs → ∃ rd rest2, (a.1, Json.obj rd) ∈ kvs ∧
      Role.from_dict rd = some (a.2, rest2)) ∧
    (∀ b, b ∈ kvs → ∃ role, (b.1, role) ∈ rs) := by
  induction kvs generalizing rs with
  | nil =>
    rw [decodeRoles] at h
    cases h
    exact ⟨fun a ha => absurd ha (by simp), fun b hb => absurd hb (by simp)⟩
  | cons kv rest ih =>
    obtain ⟨nm, rdv⟩ := kv
    cases rdv with
    | null => simp [decodeRoles] at h
    | bool b => simp [decodeRoles] at h
    | num n => simp [decodeRoles] at h
    | str st => simp [decodeRoles] at h
    | arr xs => simp [decodeRoles] at h
    | obj rd =>
      cases h1 : Role.from_dict rd with
      | none => simp [decodeRoles, h1] at h
      | some p1 =>
        obtain ⟨role, rest2⟩ := p1
        cases h2 : decodeRoles rest with
        | none => simp [decodeRoles, h1, h2] at h
        | some rs2 =>
          simp only [decodeRoles, h1, h2, Option.some.injEq] at h
          subst h
          obtain ⟨ih1, ih2⟩ := ih h2
          constructor
          · intro a ha
            cases List.mem_cons.mp ha with
            | inl he =>
              subst he
              exact ⟨rd, rest2, List.mem_cons_self _ _, h1⟩
            | inr hm =>
              obtain ⟨rd2, r2, hmem, hfd⟩ := ih1 a hm
              exact ⟨rd2, r2, List.mem_cons_of_mem _ hmem, hfd⟩
          · intro b hb
            cases List.mem_cons.mp hb with
            | inl he =>
              subst he
              exact ⟨role, List.mem_cons_self _ _⟩
            | inr hm =>
              obtain ⟨role2, hmem⟩ := ih2 b hm
              exact ⟨role2, List.mem_cons_of_mem _ hmem⟩

theorem rolesmap_roundtrip (set_iter : List String → List String)
    (hord : ∀ xs : List String, set_iter xs = xs)
    {kvs : List (String × Json)} {rs : List (String × Role)}
    (hwf : wfJson (.obj kvs) = true) (h : decodeRoles kvs = some rs) :
    pyEq (.obj (encodeRoles set_iter rs)) (.obj kvs) = true := by
  obtain ⟨hdist, hdict⟩ := wfJson_obj_elim hwf
  obtain ⟨h1, h2⟩ := decodeRoles_entries h
  refine pyEq_obj_intro (fun kv hm => ?_) (fun kv hm => ?_)
  · rw [encodeRoles] at hm
    obtain ⟨a, ham, hae⟩ := List.mem_map.mp hm
    obtain ⟨rd, rest2, hmem, hfd⟩ := h1 a ham
    subst hae
    refine ⟨.obj rd, dlookup_eq_of_mem_distinct hdist hmem, ?_⟩
    exact role_roundtrip set_iter hord (wfDict_value hdict hmem) hfd
  · obtain ⟨role, hmem⟩ := h2 kv hm
    have hm2 : (kv.1, Json.obj (role.to_dict set_iter)) ∈
        encodeRoles set_iter rs := by
      rw [encodeRoles]
      exact List.mem_map.mpr ⟨(kv.1, role), hmem, rfl⟩
    exact @isSome_dlookup_of_mem (encodeRoles set_iter rs)
      (kv.1, Json.obj (role.to_dict set_iter)) hm2

theorem optFieldOk_lookup {d : Dict} {k : String} {v : Json}
    (hok : optFieldOk d k = true) (hl : dlookup d k = some v) :
    truthy v = true := by
  rw [optFieldOk, hl] at hok
  exact hok

theorem getD_truthy_lookup {d : Dict} {k : String} {p : Json}
    (hp : p = (dlookup d k).getD .null) (ht : truthy p = true) :
    dlookup d k = some p := by
  cases hl : dlookup d k with
  | none =>
    rw [hl] at hp
    simp at hp
    rw [hp] at ht
    exact absurd ht (by decide)
  | some v =>
    rw [hl] at hp
    simp at hp
    rw [hp]

theorem dr_roundtrip (set_iter : List String → List String)
    (hord : ∀ xs : List String, set_iter xs = xs)
    {d : Dict} {r : DelegatedRole} {rest : Dict}
    (hwf : wfJson (.obj d) = true) (hok : drRecordOk (.obj d) = true)
    (h : DelegatedRole.from_dict d = some (r, rest)) :
    pyEq (.obj (r.to_dict set_iter)) (.obj d) = true := by
  obtain ⟨e1, e2, e3, e4, epaths, ephp, _, hff, hrest, hunrec⟩ :=
    delegated_role_from_dict_spec h
  obtain ⟨hdist, hdict⟩ := wfJson_obj_elim hwf
  rw [drRecordOk] at hok
  simp only [Bool.and_eq_true] at hok
  have hwfval : ∀ kv2 : String × Json, kv2 ∈ d → wfJson kv2.2 = true :=
    fun kv2 hm => wfDict_value hdict hm
  have hkeys6 : ∀ x : String, ¬(x = "name" ∨ x = "keyids" ∨
      x = "threshold" ∨ x = "terminating" ∨ x = "paths" ∨
      x = "path_hash_prefixes") →
      dlookup (derases d ["name", "keyids", "threshold", "terminating",
        "paths", "path_hash_prefixes"]) x = dlookup d x := by
    intro x hx
    rw [dlookup_derases, if_neg]
    simpa using hx
  refine pyEq_obj_intro (fun kv hm => ?_) (fun kv hm => ?_)
  · rw [DelegatedRole.to_dict, hord] at hm
    rcases List.mem_append.mp hm with hm12 | hmtail
    · rcases List.mem_append.mp hm12 with hm1 | hm2
      · simp only [List.mem_cons, List.not_mem_nil, or_false] at hm1
        rcases hm1 with rfl | rfl | rfl | rfl
        · exact ⟨r.name, e1, pyEq_refl _ (hwfval _ (dlookup_mem e1))⟩
        · exact ⟨r.terminating, e4, pyEq_refl _ (hwfval _ (dlookup_mem e4))⟩
        · exact ⟨_, e2, pyEq_refl _ (hwfval _ (dlookup_mem e2))⟩
        · exact ⟨r.threshold, e3, pyEq_refl _ (hwfval _ (dlookup_mem e3))⟩
      · have hmd : kv ∈ d := by
          rw [hunrec, hrest] at hm2
          exact mem_derases hm2
        exact ⟨kv.2, dlookup_eq_of_mem_distinct hdist hmd,
          pyEq_refl _ (hwfval _ hmd)⟩
    · by_cases hp : truthy r.paths = true
      · rw [if_pos hp] at hmtail
        simp only [List.mem_cons, List.not_mem_nil, or_false] at hmtail
        subst hmtail
        have hl := getD_truthy_lookup epaths hp
        exact ⟨r.paths, hl, pyEq_refl _ (hwfval _ (dlookup_mem hl))⟩
      · rw [if_neg hp] at hmtail
        by_cases hq : truthy r.path_hash_prefixes = true
        · rw [if_pos hq] at hmtail
          simp only [List.mem_cons, List.not_mem_nil, or_false] at hmtail
          subst hmtail
          have hl := getD_truthy_lookup ephp hq
          exact ⟨r.path_hash_prefixes, hl,
            pyEq_refl _ (hwfval _ (dlookup_mem hl))⟩
        · rw [if_neg hq] at hmtail
          exact absurd hmtail (by simp)
  · rw [DelegatedRole.to_dict, hord, dlookup_append, dlookup_append]
    cases hd1 : dlookup [("name", r.name), ("terminating", r.terminating),
        ("keyids", .arr (r.keyids.map .str)),
        ("threshold", r.threshold)] kv.1 with
    | some v => simp
    | none =>
      simp only [dlookup, beq_iff_eq] at hd1
      by_cases q1 : "name" = kv.1
      · rw [if_pos q1] at hd1; exact absurd hd1 (by simp)
      · rw [if_neg q1] at hd1
        by_cases q2 : "terminating" = kv.1
        · rw [if_pos q2] at hd1; exact absurd hd1 (by simp)
        · rw [if_neg q2] at hd1
          by_cases q3 : "keyids" = kv.1
          · rw [if_pos q3] at hd1; exact absurd hd1 (by simp)
          · rw [if_neg q3] at hd1
            by_cases q4 : "threshold" = kv.1
            · rw [if_pos q4] at hd1; exact absurd hd1 (by simp)
            · simp only []
              by_cases q5 : kv.1 = "paths"
              · -- the paths entry of d must be truthy, so the tail emits it
                have hlv : dlookup d kv.1 = some kv.2 :=
                  dlookup_eq_of_mem_distinct hdist hm
                have htv : truthy kv.2 = true := by
                  apply optFieldOk_lookup hok.1
                  rw [← q5]
                  exact hlv
                have hpv : r.paths = kv.2 := by
                  rw [epaths, ← q5, hlv]
                  rfl
                have hp : truthy r.paths = true := by rw [hpv]; exact htv
                rw [hunrec, hrest, dlookup_derases, if_pos (by simp [q5])]
                rw [if_pos hp]
                rw [dlookup, if_pos (by simp [q5])]
                rfl
              · by_cases q6 : kv.1 = "path_hash_prefixes"
                · have hlv : dlookup d kv.1 = some kv.2 :=
                    dlookup_eq_of_mem_distinct hdist hm
                  have htv : truthy kv.2 = true := by
                    apply optFieldOk_lookup hok.2
                    rw [← q6]
                    exact hlv
                  have hqv : r.path_hash_prefixes = kv.2 := by
                    rw [ephp, ← q6, hlv]
                    rfl
                  have hq : truthy r.path_hash_prefixes = true := by
                    rw [hqv]; exact htv
                  have hp : truthy r.paths = false := by
                    cases hx : truthy r.paths with
                    | false => rfl
                    | true => rw [hx, hq] at hff; exact absurd hff (by decide)
                  rw [hunrec, hrest, dlookup_derases, if_pos (by simp [q6])]
                  rw [if_neg (by rw [hp]; exact Bool.false_ne_true),
                    if_pos hq]
                  rw [dlookup, if_pos (by simp [q6])]
                  rfl
                · rw [hunrec, hrest, hkeys6 kv.1 (by
                    push_neg
                    exact ⟨fun hq => q1 hq.symm, fun hq => q3 hq.symm,
                      fun hq => q4 hq.symm, fun hq => q2 hq.symm, q5, q6⟩)]
                  cases hl : dlookup d kv.1 with
                  | none =>
                    exact absurd (hl ▸ isSome_dlookup_of_mem hm) (by simp)
                  | some v => simp

theorem drlist_roundtrip (set_iter : List String → List String)
    (hord : ∀ xs : List String, set_iter xs = xs)
    {rs : List Json} {roles : List DelegatedRole}
    (hwf : wfArr rs = true) (hok : rs.all drRecordOk = true)
    (h : decodeDelegatedRoles rs = some roles) :
    pyEqList (roles.map (fun r => .obj (r.to_dict set_iter))) rs = true := by
  induction rs generalizing roles with
  | nil =>
    rw [decodeDelegatedRoles] at h
    cases h
    simp [pyEqList]
  | cons x rest ih =>
    rw [wfArr] at hwf
    simp only [Bool.and_eq_true] at hwf
    simp only [List.all_cons, Bool.and_eq_true] at hok
    cases x with
    | null => simp [decodeDelegatedRoles] at h
    | bool b => simp [decodeDelegatedRoles] at h
    | num n => simp [decodeDelegatedRoles] at h
    | str st => simp [decodeDelegatedRoles] at h
    | arr xs => simp [decodeDelegatedRoles] at h
    | obj rd =>
      cases h1 : DelegatedRole.from_dict rd with
      | none => simp [decodeDelegatedRoles, h1] at h
      | some p1 =>
        obtain ⟨role, rest2⟩ := p1
        cases h2 : decodeDelegatedRoles rest with
        | none => simp [decodeDelegatedRoles, h1, h2] at h
        | some roles2 =>
          simp only [decodeDelegatedRoles, h1, h2, Option.some.injEq] at h
          subst h
          rw [List.map_cons, pyEqList_cons_eq,
            dr_roundtrip set_iter hord hwf.1 hok.1 h1, ih hwf.2 hok.2 h2]
          rfl

theorem delegations_from_dict_spec {d : Dict} {dg : Delegations}
    {rest : Dict} (h : Delegations.from_dict d = some (dg, rest)) :
    ∃ kvs rolesJson,
      dlookup d "keys" = some (.obj kvs) ∧
      decodeKeys kvs = some dg.keys ∧
      dlookup d "roles" = some (.arr rolesJson) ∧
      decodeDelegatedRoles rolesJson = some dg.roles ∧
      rest = derases d ["keys", "roles"] ∧
      dg.unrecognized_fields = rest := by
  cases h1 : dpop d "keys" with
  | none => simp [Delegations.from_dict, h1] at h
  | some p1 =>
    obtain ⟨kv, d1⟩ := p1
    obtain ⟨hl1, hd1⟩ := dpop_eq_some h1
    cases kv with
    | null => simp [Delegations.from_dict, h1] at h
    | bool b => simp [Delegations.from_dict, h1] at h
    | num n => simp [Delegations.from_dict, h1] at h
    | str st => simp [Delegations.from_dict, h1] at h
    | arr xs => simp [Delegations.from_dict, h1] at h
    | obj kvs =>
      cases h2 : decodeKeys kvs with
      | none => simp [Delegations.from_dict, h1, h2] at h
      | some keys =>
        cases h3 : dpop d1 "roles" with
        | none => simp [Delegations.from_dict, h1, h2, h3] at h
        | some p3 =>
          obtain ⟨rv, d2⟩ := p3
          obtain ⟨hl3, hd3⟩ := dpop_eq_some h3
          cases rv with
          | null => simp [Delegations.from_dict, h1, h2, h3] at h
          | bool b => simp [Delegations.from_dict, h1, h2, h3] at h
          | num n => simp [Delegations.from_dict, h1, h2, h3] at h
          | str st => simp [Delegations.from_dict, h1, h2, h3] at h
          | obj kvs2 => simp [Delegations.from_dict, h1, h2, h3] at h
          | arr rolesJson =>
            cases h4 : decodeDelegatedRoles rolesJson with
            | none => simp [Delegations.from_dict, h1, h2, h3, h4] at h
            | some roles =>
              simp only [Delegations.from_dict, h1, h2, h3, h4,
                Option.some.injEq, Prod.mk.injEq] at h
              obtain ⟨hdg, hrest⟩ := h
              subst hdg
              subst hrest
              refine ⟨kvs, rolesJson, hl1, h2, ?_, h4, ?_, rfl⟩
              · rw [← hl3, hd1, dlookup_derase_ne _ _ _ (by decide)]
              · rw [hd3, hd1]
                rfl

theorem delegations_roundtrip (set_iter : List String → List String)
    (hord : ∀ xs : List String, set_iter xs = xs)
    {d : Dict} {dg : Delegations} {rest : Dict}
    (hwf : wfJson (.obj d) = true)
    (hok : delegationsRecordOk (.obj d) = true)
    (h : Delegations.from_dict d = some (dg, rest)) :
    pyEq (.obj (dg.to_dict set_iter)) (.obj d) = true := by
  obtain ⟨kvs, rolesJson, e1, e2, e3, e4, hrest, hunrec⟩ :=
    delegations_from_dict_spec h
  obtain ⟨hdist, hdict⟩ := wfJson_obj_elim hwf
  have hwfval : ∀ kv2 : String × Json, kv2 ∈ d → wfJson kv2.2 = true :=
    fun kv2 hm => wfDict_value hdict hm
  have hokroles : rolesJson.all drRecordOk = true := by
    rw [delegationsRecordOk, e3] at hok
    exact hok
  refine pyEq_obj_intro (fun kv hm => ?_) (fun kv hm => ?_)
  · rw [Delegations.to_dict] at hm
    rcases List.mem_append.mp hm with hm1 | hm2
    · simp only [List.mem_cons, List.not_mem_nil, or_false] at hm1
      rcases hm1 with rfl | rfl
      · refine ⟨.obj kvs, e1, ?_⟩
        exact keysmap_roundtrip (hwfval _ (dlookup_mem e1)) e2
      · refine ⟨.arr rolesJson, e3, ?_⟩
        rw [pyEq_arr_eq]
        refine drlist_roundtrip set_iter hord ?_ hokroles e4
        have := hwfval _ (dlookup_mem e3)
        rw [wfJson] at this
        exact this
    · have hmd : kv ∈ d := by
        rw [hunrec, hrest] at hm2
        exact mem_derases hm2
      exact ⟨kv.2, dlookup_eq_of_mem_distinct hdist hmd,
        pyEq_refl _ (hwfval _ hmd)⟩
  · rw [Delegations.to_dict, dlookup_append]
    cases hd1 : dlookup [("keys", .obj (encodeKeys dg.keys)),
        ("roles", .arr (dg.roles.map
          (fun r => .obj (r.to_dict set_iter))))] kv.1 with
    | some v => simp
    | none =>
      simp only [dlookup, beq_iff_eq] at hd1
      by_cases q1 : "keys" = kv.1
      · rw [if_pos q1] at hd1; exact absurd hd1 (by simp)
      · rw [if_neg q1] at hd1
        by_cases q2 : "roles" = kv.1
        · rw [if_pos q2] at hd1; exact absurd hd1 (by simp)
        · simp only []
          rw [hunrec, hrest, dlookup_derases, if_neg]
          · exact isSome_dlookup_of_mem hm
          · simp only [List.mem_cons, List.not_mem_nil, or_false]
            push_neg
            exact ⟨fun hq => q1 hq.symm, fun hq => q2 hq.symm⟩

theorem timestamp_from_dict_spec {d : Dict} {t : Timestamp} {rest : Dict}
    (h : Timestamp.from_dict d = some (t, rest)) :
    common_fields_from_dict "timestamp" d =
      some (t.common,
        derases d ["_type", "version", "spec_version", "expires"]) ∧
    dlookup d "meta" = some t.meta ∧
    rest = derases d ["_type", "version", "spec_version", "expires",
      "meta"] ∧
    t.unrecognized_fields = rest := by
  cases h1 : common_fields_from_dict "timestamp" d with
  | none => simp [Timestamp.from_dict, h1] at h
  | some p1 =>
    obtain ⟨c, d1⟩ := p1
    have hd1 : d1 = derases d ["_type", "version", "spec_version",
        "expires"] :=
      (common_fields_from_dict_spec h1).2.2.2.2.2.2
    cases h2 : dpop d1 "meta" with
    | none => simp [Timestamp.from_dict, h1, h2] at h
    | some p2 =>
      obtain ⟨mv, d2⟩ := p2
      obtain ⟨hl2, hd2⟩ := dpop_eq_some h2
      simp only [Timestamp.from_dict, h1, h2, Option.some.injEq,
        Prod.mk.injEq] at h
      obtain ⟨ht, hrest⟩ := h
      subst ht
      subst hrest
      refine ⟨?_, ?_, ?_, rfl⟩
      · rw [hd1]
      · rw [← hl2, hd1, dlookup_derases, if_neg (by decide)]
      · rw [hd2, hd1]
        rfl

theorem timestamp_roundtrip {d : Dict} {t : Timestamp} {rest : Dict}
    (hwf : wfJson (.obj d) = true)
    (h : Timestamp.from_dict d = some (t, rest)) :
    pyEq (.obj t.to_dict) (.obj d) = true := by
  obtain ⟨hc, emeta, hrest, hunrec⟩ := timestamp_from_dict_spec h
  obtain ⟨c1, c2, _, c4, c5, _, _⟩ := common_fields_from_dict_spec hc
  obtain ⟨hdist, hdict⟩ := wfJson_obj_elim hwf
  have hwfval : ∀ kv2 : String × Json, kv2 ∈ d → wfJson kv2.2 = true :=
    fun kv2 hm => wfDict_value hdict hm
  refine pyEq_obj_intro (fun kv hm => ?_) (fun kv hm => ?_)
  · rw [Timestamp.to_dict, common_fields_to_dict] at hm
    rcases List.mem_append.mp hm with hm12 | hmt
    · rcases List.mem_append.mp hm12 with hm1 | hm2
      · simp only [List.mem_cons, List.not_mem_nil, or_false] at hm1
        rcases hm1 with rfl | rfl | rfl | rfl
        · exact ⟨_, c1, by rw [pyEq_str]; simp⟩
        · exact ⟨_, c2, by rw [pyEq_num]; simp⟩
        · exact ⟨_, c4, pyEq_refl _ (hwfval _ (dlookup_mem c4))⟩
        · exact ⟨_, c5, by rw [Datetime.isoformatZ, pyEq_str]; simp⟩
      · have hmd : kv ∈ d := by
          rw [hunrec, hrest] at hm2
          exact mem_derases hm2
        exact ⟨kv.2, dlookup_eq_of_mem_distinct hdist hmd,
          pyEq_refl _ (hwfval _ hmd)⟩
    · simp only [List.mem_cons, List.not_mem_nil, or_false] at hmt
      subst hmt
      exact ⟨t.meta, emeta, pyEq_refl _ (hwfval _ (dlookup_mem emeta))⟩
  · rw [Timestamp.to_dict, common_fields_to_dict, dlookup_append,
      dlookup_append]
    cases hd1 : dlookup [("_type", .str "timestamp"),
        ("version", .num t.common.version),
        ("spec_version", t.common.spec_version),
        ("expires", .str t.common.expires.isoformatZ)] kv.1 with
    | some v => simp
    | none =>
      simp only [dlookup, beq_iff_eq] at hd1
      by_cases q1 : "_type" = kv.1
      · rw [if_pos q1] at hd1; exact absurd hd1 (by simp)
      · rw [if_neg q1] at hd1
        by_cases q2 : "version" = kv.1
        · rw [if_pos q2] at hd1; exact absurd hd1 (by simp)
        · rw [if_neg q2] at hd1
          by_cases q3 : "spec_version" = kv.1
          · rw [if_pos q3] at hd1; exact absurd hd1 (by simp)
          · rw [if_neg q3] at hd1
            by_cases q4 : "expires" = kv.1
            · rw [if_pos q4] at hd1; exact absurd hd1 (by simp)
            · simp only []
              by_cases q5 : kv.1 = "meta"
              · rw [hunrec, hrest, dlookup_derases,
                  if_pos (by simp [q5])]
                rw [dlookup, if_pos (by simp [q5])]
                rfl
              · rw [hunrec, hrest, dlookup_derases, if_neg (by
                  simp only [List.mem_cons, List.not_mem_nil, or_false]
                  push_neg
                  exact ⟨fun hq => q1 hq.symm, fun hq => q2 hq.symm,
                    fun hq => q3 hq.symm, fun hq => q4 hq.symm, q5⟩)]
                cases hl : dlookup d kv.1 with
                | none =>
                  exact absurd (hl ▸ isSome_dlookup_of_mem hm) (by simp)
                | some v => simp

theorem snapshot_from_dict_spec {d : Dict} {t : Snapshot} {rest : Dict}
    (h : Snapshot.from_dict d = some (t, rest)) :
    common_fields_from_dict "snapshot" d =
      some (t.common,
        derases d ["_type", "version", "spec_version", "expires"]) ∧
    dlookup d "meta" = some t.meta ∧
    rest = derases d ["_type", "version", "spec_version", "expires",
      "meta"] ∧
    t.unrecognized_fields = rest := by
  cases h1 : common_fields_from_dict "snapshot" d with
  | none => simp [Snapshot.from_dict, h1] at h
  | some p1 =>
    obtain ⟨c, d1⟩ := p1
    have hd1 : d1 = derases d ["_type", "version", "spec_version",
        "expires"] :=
      (common_fields_from_dict_spec h1).2.2.2.2.2.2
    cases h2 : dpop d1 "meta" with
    | none => simp [Snapshot.from_dict, h1, h2] at h
    | some p2 =>
      obtain ⟨mv, d2⟩ := p2
      obtain ⟨hl2, hd2⟩ := dpop_eq_some h2
      simp only [Snapshot.from_dict, h1, h2, Option.some.injEq,
        Prod.mk.injEq] at h
      obtain ⟨ht, hrest⟩ := h
      subst ht
      subst hrest
      refine ⟨?_, ?_, ?_, rfl⟩
      · rw [hd1]
      · rw [← hl2, hd1, dlookup_derases, if_neg (by decide)]
      · rw [hd2, hd1]
        rfl

theorem snapshot_roundtrip {d : Dict} {t : Snapshot} {rest : Dict}
    (hwf : wfJson (.obj d) = true)
    (h : Snapshot.from_dict d = some (t, rest)) :
    pyEq (.obj t.to_dict) (.obj d) = true := by
  obtain ⟨hc, emeta, hrest, hunrec⟩ := snapshot_from_dict_spec h
  obtain ⟨c1, c2, _, c4, c5, _, _⟩ := common_fields_from_dict_spec hc
  obtain ⟨hdist, hdict⟩ := wfJson_obj_elim hwf
  have hwfval : ∀ kv2 : String × Json, kv2 ∈ d → wfJson kv2.2 = true :=
    fun kv2 hm => wfDict_value hdict hm
  refine pyEq_obj_intro (fun kv hm => ?_) (fun kv hm => ?_)
  · rw [Snapshot.to_dict, common_fields_to_dict] at hm
    rcases List.mem_append.mp hm with hm12 | hmt
    · rcases List.mem_append.mp hm12 with hm1 | hm2
      · simp only [List.mem_cons, List.not_mem_nil, or_false] at hm1
        rcases hm1 with rfl | rfl | rfl | rfl
        · exact ⟨_, c1, by rw [pyEq_str]; simp⟩
        · exact ⟨_, c2, by rw [pyEq_num]; simp⟩
        · exact ⟨_, c4, pyEq_refl _ (hwfval _ (dlookup_mem c4))⟩
        · exact ⟨_, c5, by rw [Datetime.isoformatZ, pyEq_str]; simp⟩
      · have hmd : kv ∈ d := by
          rw [hunrec, hrest] at hm2
          exact mem_derases hm2
        exact ⟨kv.2, dlookup_eq_of_mem_distinct hdist hmd,
          pyEq_refl _ (hwfval _ hmd)⟩
    · simp only [List.mem_cons, List.not_mem_nil, or_false] at hmt
      subst hmt
      exact ⟨t.meta, emeta, pyEq_refl _ (hwfval _ (dlookup_mem emeta))⟩
  · rw [Snapshot.to_dict, common_fields_to_dict, dlookup_append,
      dlookup_append]
    cases hd1 : dlookup [("_type", .str "snapshot"),
        ("version", .num t.common.version),
        ("spec_version", t.common.spec_version),
        ("expires", .str t.common.expires.isoformatZ)] kv.1 with
    | some v => simp
    | none =>
      simp only [dlookup, beq_iff_eq] at hd1
      by_cases q1 : "_type" = kv.1
      · rw [if_pos q1] at hd1; exact absurd hd1 (by simp)
      · rw [if_neg q1] at hd1
        by_cases q2 : "version" = kv.1
        · rw [if_pos q2] at hd1; exact absurd hd1 (by simp)
        · rw [if_neg q2] at hd1
          by_cases q3 : "spec_version" = kv.1
          · rw [if_pos q3] at hd1; exact absurd hd1 (by simp)
          · rw [if_neg q3] at hd1
            by_cases q4 : "expires" = kv.1
            · rw [if_pos q4] at hd1; exact absurd hd1 (by simp)
            · simp only []
              by_cases q5 : kv.1 = "meta"
              · rw [hunrec, hrest, dlookup_derases,
                  if_pos (by simp [q5])]
                rw [dlookup, if_pos (by simp [q5])]
                rfl
              · rw [hunrec, hrest, dlookup_derases, if_neg (by
                  simp only [List.mem_cons, List.not_mem_nil, or_false]
                  push_neg
                  exact ⟨fun hq => q1 hq.symm, fun hq => q2 hq.symm,
                    fun hq => q3 hq.symm, fun hq => q4 hq.symm, q5⟩)]
                cases hl : dlookup d kv.1 with
                | none =>
                  exact absurd (hl ▸ isSome_dlookup_of_mem hm) (by simp)
                | some v => simp

theorem root_from_dict_spec {d : Dict} {r : Root} {rest : Dict}
    (h : Root.from_dict d = some (r, rest)) :
    common_fields_from_dict "root" d =
      some (r.common,
        derases d ["_type", "version", "spec_version", "expires"]) ∧
    dlookup d "consistent_snapshot" = some r.consistent_snapshot ∧
    (∃ kvs, dlookup d "keys" = some (.obj kvs) ∧
      decodeKeys kvs = some r.keys) ∧
    (∃ rvs, dlookup d "roles" = some (.obj rvs) ∧
      decodeRoles rvs = some r.roles) ∧
    rest = derases d ["_type", "version", "spec_version", "expires",
      "consistent_snapshot", "keys", "roles"] ∧
    r.unrecognized_fields = rest := by
  cases h1 : common_fields_from_dict "root" d with
  | none => simp [Root.from_dict, h1] at h
  | some p1 =>
    obtain ⟨c, d1⟩ := p1
    have hd1 : d1 = derases d ["_type", "version", "spec_version",
        "expires"] :=
      (common_fields_from_dict_spec h1).2.2.2.2.2.2
    cases h2 : dpop d1 "consistent_snapshot" with
    | none => simp [Root.from_dict, h1, h2] at h
    | some p2 =>
      obtain ⟨cs, d2⟩ := p2
      obtain ⟨hl2, hd2⟩ := dpop_eq_some h2
      cases h3 : dpop d2 "keys" with
      | none => simp [Root.from_dict, h1, h2, h3] at h
      | some p3 =>
        obtain ⟨kval, d3⟩ := p3
        obtain ⟨hl3, hd3⟩ := dpop_eq_some h3
        cases kval with
        | null => simp [Root.from_dict, h1, h2, h3] at h
        | bool b => simp [Root.from_dict, h1, h2, h3] at h
        | num n => simp [Root.from_dict, h1, h2, h3] at h
        | str st => simp [Root.from_dict, h1, h2, h3] at h
        | arr xs => simp [Root.from_dict, h1, h2, h3] at h
        | obj kvs =>
          cases h4 : decodeKeys kvs with
          | none => simp [Root.from_dict, h1, h2, h3, h4] at h
          | some keys =>
            cases h5 : dpop d3 "roles" with
            | none => simp [Root.from_dict, h1, h2, h3, h4, h5] at h
            | some p5 =>
              obtain ⟨rval, d4⟩ := p5
              obtain ⟨hl5, hd5⟩ := dpop_eq_some h5
              cases rval with
              | null => simp [Root.from_dict, h1, h2, h3, h4, h5] at h
              | bool b => simp [Root.from_dict, h1, h2, h3, h4, h5] at h
              | num n => simp [Root.from_dict, h1, h2, h3, h4, h5] at h
              | str st => simp [Root.from_dict, h1, h2, h3, h4, h5] at h
              | arr xs => simp [Root.from_dict, h1, h2, h3, h4, h5] at h
              | obj rvs =>
                cases h6 : decodeRoles rvs with
                | none =>
                  simp [Root.from_dict, h1, h2, h3, h4, h5, h6] at h
                | some roles =>
                  simp only [Root.from_dict, h1, h2, h3, h4, h5, h6,
                    Option.some.injEq, Prod.mk.injEq] at h
                  obtain ⟨hr, hrest⟩ := h
                  subst hr
                  subst hrest
                  refine ⟨by rw [hd1], ?_, ⟨kvs, ?_, h4⟩, ⟨rvs, ?_, h6⟩,
                    ?_, rfl⟩
                  · rw [← hl2, hd1, dlookup_derases, if_neg (by decide)]
                  · rw [← hl3, hd2, hd1, dlookup_derase_ne _ _ _
                      (by decide), dlookup_derases, if_neg (by decide)]
                  · rw [← hl5, hd3, hd2, hd1,
                      dlookup_derase_ne _ _ _ (by decide),
                      dlookup_derase_ne _ _ _ (by decide),
                      dlookup_derases, if_neg (by decide)]
                  · rw [hd5, hd3, hd2, hd1]
                    rfl

theorem root_roundtrip (set_iter : List String → List String)
    (hord : ∀ xs : List String, set_iter xs = xs)
    {d : Dict} {r : Root} {rest : Dict}
    (hwf : wfJson (.obj d) = true)
    (h : Root.from_dict d = some (r, rest)) :
    pyEq (.obj (r.to_dict set_iter)) (.obj d) = true := by
  obtain ⟨hc, ecs, ⟨kvs, ekeys, edeck⟩, ⟨rvs, eroles, edecr⟩, hrest,
    hunrec⟩ := root_from_dict_spec h
  obtain ⟨c1, c2, _, c4, c5, _, _⟩ := common_fields_from_dict_spec hc
  obtain ⟨hdist, hdict⟩ := wfJson_obj_elim hwf
  have hwfval : ∀ kv2 : String × Json, kv2 ∈ d → wfJson kv2.2 = true :=
    fun kv2 hm => wfDict_value hdict hm
  refine pyEq_obj_intro (fun kv hm => ?_) (fun kv hm => ?_)
  · rw [Root.to_dict, common_fields_to_dict] at hm
    rcases List.mem_append.mp hm with hm12 | hmt
    · rcases List.mem_append.mp hm12 with hm1 | hm2
      · simp only [List.mem_cons, List.not_mem_nil, or_false] at hm1
        rcases hm1 with rfl | rfl | rfl | rfl
        · exact ⟨_, c1, by rw [pyEq_str]; simp⟩
        · exact ⟨_, c2, by rw [pyEq_num]; simp⟩
        · exact ⟨_, c4, pyEq_refl _ (hwfval _ (dlookup_mem c4))⟩
        · exact ⟨_, c5, by rw [Datetime.isoformatZ, pyEq_str]; simp⟩
      · have hmd : kv ∈ d := by
          rw [hunrec, hrest] at hm2
          exact mem_derases hm2
        exact ⟨kv.2, dlookup_eq_of_mem_distinct hdist hmd,
          pyEq_refl _ (hwfval _ hmd)⟩
    · simp only [List.mem_cons, List.not_mem_nil, or_false] at hmt
      rcases hmt with rfl | rfl | rfl
      · exact ⟨r.consistent_snapshot, ecs,
          pyEq_refl _ (hwfval _ (dlookup_mem ecs))⟩
      · exact ⟨.obj kvs, ekeys,
          keysmap_roundtrip (hwfval _ (dlookup_mem ekeys)) edeck⟩
      · exact ⟨.obj rvs, eroles,
          rolesmap_roundtrip set_iter hord (hwfval _ (dlookup_mem eroles))
            edecr⟩
  · rw [Root.to_dict, common_fields_to_dict, dlookup_append,
      dlookup_append]
    cases hd1 : dlookup [("_type", .str "root"),
        ("version", .num r.common.version),
        ("spec_version", r.common.spec_version),
        ("expires", .str r.common.expires.isoformatZ)] kv.1 with
    | some v => simp
    | none =>
      simp only [dlookup, beq_iff_eq] at hd1
      by_cases q1 : "_type" = kv.1
      · rw [if_pos q1] at hd1; exact absurd hd1 (by simp)
      · rw [if_neg q1] at hd1
        by_cases q2 : "version" = kv.1
        · rw [if_pos q2] at hd1; exact absurd hd1 (by simp)
        · rw [if_neg q2] at hd1
          by_cases q3 : "spec_version" = kv.1
          · rw [if_pos q3] at hd1; exact absurd hd1 (by simp)
          · rw [if_neg q3] at hd1
            by_cases q4 : "expires" = kv.1
            · rw [if_pos q4] at hd1; exact absurd hd1 (by simp)
            · simp only []
              by_cases q5 : kv.1 = "consistent_snapshot"
              · rw [hunrec, hrest, dlookup_derases,
                  if_pos (by simp [q5])]
                rw [dlookup, if_pos (by simp [q5])]
                rfl
              · by_cases q6 : kv.1 = "keys"
                · rw [hunrec, hrest, dlookup_derases,
                    if_pos (by simp [q6])]
                  rw [dlookup, if_neg (by simp [q6]), dlookup,
                    if_pos (by simp [q6])]
                  rfl
                · by_cases q7 : kv.1 = "roles"
                  · rw [hunrec, hrest, dlookup_derases,
                      if_pos (by simp [q7])]
                    rw [dlookup, if_neg (by simp [q7]), dlookup,
                      if_neg (by simp [q7]), dlookup,
                      if_pos (by simp [q7])]
                    rfl
                  · rw [hunrec, hrest, dlookup_derases, if_neg (by
                      simp only [List.mem_cons, List.not_mem_nil, or_false]
                      push_neg
                      exact ⟨fun hq => q1 hq.symm, fun hq => q2 hq.symm,
                        fun hq => q3 hq.symm, fun hq => q4 hq.symm,
                        q5, q6, q7⟩)]
                    cases hl : dlookup d kv.1 with
                    | none =>
                      exact absurd (hl ▸ isSome_dlookup_of_mem hm)
                        (by simp)
                    | some v => simp

theorem targets_from_dict_spec {d : Dict} {t : Targets} {rest : Dict}
    (h : Targets.from_dict d = some (t, rest)) :
    common_fields_from_dict "targets" d =
      some (t.common,
        derases d ["_type", "version", "spec_version", "expires"]) ∧
    dlookup d "targets" = some t.targets ∧
    ((∃ v, t.delegations = .raw v ∧
        v = (dlookup d "delegations").getD .null ∧ truthy v = false) ∨
     (∃ dd dg rest2, dlookup d "delegations" = some (.obj dd) ∧
        Delegations.from_dict dd = some (dg, rest2) ∧
        t.delegations = .parsed dg)) ∧
    rest = derases d ["_type", "version", "spec_version", "expires",
      "targets", "delegations"] ∧
    t.unrecognized_fields = rest := by
  cases h1 : common_fields_from_dict "targets" d with
  | none => simp [Targets.from_dict, h1] at h
  | some p1 =>
    obtain ⟨c, d1⟩ := p1
    have hd1 : d1 = derases d ["_type", "version", "spec_version",
        "expires"] :=
      (common_fields_from_dict_spec h1).2.2.2.2.2.2
    cases h2 : dpop d1 "targets" with
    | none => simp [Targets.from_dict, h1, h2] at h
    | some p2 =>
      obtain ⟨tv, d2⟩ := p2
      obtain ⟨hl2, hd2⟩ := dpop_eq_some h2
      have etv : dlookup d "targets" = some tv := by
        rw [← hl2, hd1, dlookup_derases, if_neg (by decide)]
      have edel : dlookup d2 "delegations" = dlookup d "delegations" := by
        rw [hd2, dlookup_derase_ne _ _ _ (by decide), hd1,
          dlookup_derases, if_neg (by decide)]
      have erest : derase d2 "delegations" = derases d ["_type", "version",
          "spec_version", "expires", "targets", "delegations"] := by
        rw [hd2, hd1]
        rfl
      cases hl : dlookup d2 "delegations" with
      | none =>
        simp only [Targets.from_dict, h1, h2, dpopD_spec, hl,
          Option.getD_none] at h
        rw [if_neg (by decide)] at h
        simp only [Option.some.injEq, Prod.mk.injEq] at h
        obtain ⟨ht, hrest⟩ := h
        subst ht
        subst hrest
        refine ⟨by rw [hd1], etv, Or.inl ⟨.null, rfl, ?_, rfl⟩, ?_, rfl⟩
        · rw [← edel, hl]
          rfl
        · exact erest
      | some v =>
        by_cases htr : truthy v = true
        · cases v with
          | null => exact absurd htr (by decide)
          | bool b =>
            simp only [Targets.from_dict, h1, h2, dpopD_spec, hl,
              Option.getD_some, htr, if_true] at h
            exact absurd h (by simp)
          | num n =>
            simp only [Targets.from_dict, h1, h2, dpopD_spec, hl,
              Option.getD_some, htr, if_true] at h
            exact absurd h (by simp)
          | str st =>
            simp only [Targets.from_dict, h1, h2, dpopD_spec, hl,
              Option.getD_some, htr, if_true] at h
            exact absurd h (by simp)
          | arr xs =>
            simp only [Targets.from_dict, h1, h2, dpopD_spec, hl,
              Option.getD_some, htr, if_true] at h
            exact absurd h (by simp)
          | obj dd =>
            cases h3 : Delegations.from_dict dd with
            | none =>
              simp only [Targets.from_dict, h1, h2, dpopD_spec, hl,
                Option.getD_some, htr, if_true, h3] at h
              exact absurd h (by simp)
            | some p3 =>
              obtain ⟨dg, rest2⟩ := p3
              simp only [Targets.from_dict, h1, h2, dpopD_spec, hl,
                Option.getD_some, htr, if_true, h3, Option.some.injEq,
                Prod.mk.injEq] at h
              obtain ⟨ht, hrest⟩ := h
              subst ht
              subst hrest
              refine ⟨by rw [hd1], etv,
                Or.inr ⟨dd, dg, rest2, by rw [← edel, hl], h3, rfl⟩,
                erest, rfl⟩
        · simp only [Targets.from_dict, h1, h2, dpopD_spec, hl,
            Option.getD_some] at h
          rw [if_neg htr] at h
          simp only [Option.some.injEq, Prod.mk.injEq] at h
          obtain ⟨ht, hrest⟩ := h
          subst ht
          subst hrest
          refine ⟨by rw [hd1], etv,
            Or.inl ⟨v, rfl, by rw [← edel, hl]; rfl, ?_⟩, erest, rfl⟩
          simpa using htr

theorem targets_roundtrip (set_iter : List String → List String)
    (hord : ∀ xs : List String, set_iter xs = xs)
    {d : Dict} {t : Targets} {rest : Dict}
    (hwf : wfJson (.obj d) = true) (hok : targetsRecordOk d = true)
    (h : Targets.from_dict d = some (t, rest)) :
    pyEq (.obj (t.to_dict set_iter)) (.obj d) = true := by
  obtain ⟨hc, etv, hdel, hrest, hunrec⟩ := targets_from_dict_spec h
  obtain ⟨c1, c2, _, c4, c5, _, _⟩ := common_fields_from_dict_spec hc
  obtain ⟨hdist, hdict⟩ := wfJson_obj_elim hwf
  rw [targetsRecordOk] at hok
  simp only [Bool.and_eq_true] at hok
  have hwfval : ∀ kv2 : String × Json, kv2 ∈ d → wfJson kv2.2 = true :=
    fun kv2 hm => wfDict_value hdict hm
  refine pyEq_obj_intro (fun kv hm => ?_) (fun kv hm => ?_)
  · rw [Targets.to_dict, common_fields_to_dict] at hm
    rcases List.mem_append.mp hm with hm123 | hmtail
    · rcases List.mem_append.mp hm123 with hm12 | hmt
      · rcases List.mem_append.mp hm12 with hm1 | hm2
        · simp only [List.mem_cons, List.not_mem_nil, or_false] at hm1
          rcases hm1 with rfl | rfl | rfl | rfl
          · exact ⟨_, c1, by rw [pyEq_str]; simp⟩
          · exact ⟨_, c2, by rw [pyEq_num]; simp⟩
          · exact ⟨_, c4, pyEq_refl _ (hwfval _ (dlookup_mem c4))⟩
          · exact ⟨_, c5, by rw [Datetime.isoformatZ, pyEq_str]; simp⟩
        · have hmd : kv ∈ d := by
            rw [hunrec, hrest] at hm2
            exact mem_derases hm2
          exact ⟨kv.2, dlookup_eq_of_mem_distinct hdist hmd,
            pyEq_refl _ (hwfval _ hmd)⟩
      · simp only [List.mem_cons, List.not_mem_nil, or_false] at hmt
        subst hmt
        exact ⟨t.targets, etv, pyEq_refl _ (hwfval _ (dlookup_mem etv))⟩
    · cases hdg : t.delegations with
      | raw v =>
        rw [hdg] at hmtail
        dsimp only at hmtail
        rcases hdel with ⟨v2, hv2, _, hfalsy⟩ | ⟨dd, dg, rest2, _, _, hpar⟩
        · rw [hdg] at hv2
          cases hv2
          rw [if_neg (by rw [hfalsy]; exact Bool.false_ne_true)] at hmtail
          exact absurd hmtail (by simp)
        · rw [hdg] at hpar
          exact absurd hpar (by simp)
      | parsed dg =>
        rw [hdg] at hmtail
        dsimp only at hmtail
        simp only [List.mem_cons, List.not_mem_nil, or_false] at hmtail
        subst hmtail
        rcases hdel with ⟨v2, hv2, _, _⟩ | ⟨dd, dg2, rest2, hldd, hfd, hpar⟩
        · rw [hdg] at hv2
          exact absurd hv2 (by simp)
        · rw [hdg] at hpar
          have hdg2 : dg2 = dg := by
            have := hpar
            simp at this
            exact this.symm
          subst hdg2
          refine ⟨.obj dd, hldd, ?_⟩
          have hokdd : delegationsRecordOk (.obj dd) = true := by
            have := hok.2
            rw [hldd] at this
            exact this
          exact delegations_roundtrip set_iter hord
            (hwfval _ (dlookup_mem hldd)) hokdd hfd
  · rw [Targets.to_dict, common_fields_to_dict, dlookup_append,
      dlookup_append, dlookup_append]
    cases hd1 : dlookup [("_type", .str "targets"),
        ("version", .num t.common.version),
        ("spec_version", t.common.spec_version),
        ("expires", .str t.common.expires.isoformatZ)] kv.1 with
    | some v => simp
    | none =>
      simp only [dlookup, beq_iff_eq] at hd1
      by_cases q1 : "_type" = kv.1
      · rw [if_pos q1] at hd1; exact absurd hd1 (by simp)
      · rw [if_neg q1] at hd1
        by_cases q2 : "version" = kv.1
        · rw [if_pos q2] at hd1; exact absurd hd1 (by simp)
        · rw [if_neg q2] at hd1
          by_cases q3 : "spec_version" = kv.1
          · rw [if_pos q3] at hd1; exact absurd hd1 (by simp)
          · rw [if_neg q3] at hd1
            by_cases q4 : "expires" = kv.1
            · rw [if_pos q4] at hd1; exact absurd hd1 (by simp)
            · simp only []
              by_cases q5 : kv.1 = "targets"
              · rw [hunrec, hrest, dlookup_derases,
                  if_pos (by simp [q5])]
                rw [dlookup, if_pos (by simp [q5])]
                rfl
              · by_cases q6 : kv.1 = "delegations"
                · -- present in d, so truthy by the side condition,
                  -- so the parsed branch emitted it
                  have hlv : dlookup d kv.1 = some kv.2 :=
                    dlookup_eq_of_mem_distinct hdist hm
                  have htv : truthy kv.2 = true := by
                    apply optFieldOk_lookup hok.1
                    rw [← q6]
                    exact hlv
                  rcases hdel with ⟨v2, hv2, hval, hfalsy⟩ |
                    ⟨dd, dg, rest2, hldd, hfd, hpar⟩
                  · exfalso
                    rw [← q6] at hval
                    rw [hlv] at hval
                    simp at hval
                    rw [hval] at hfalsy
                    rw [htv] at hfalsy
                    exact absurd hfalsy (by decide)
                  · rw [hunrec, hrest, dlookup_derases,
                      if_pos (by simp [q6])]
                    rw [dlookup, if_neg (by simp [q6])]
                    rw [dlookup]
                    rw [hpar]
                    dsimp only
                    rw [dlookup, if_pos (by simp [q6])]
                    rfl
                · rw [hunrec, hrest, dlookup_derases, if_neg (by
                    simp only [List.mem_cons, List.not_mem_nil, or_false]
                    push_neg
                    exact ⟨fun hq => q1 hq.symm, fun hq => q2 hq.symm,
                      fun hq => q3 hq.symm, fun hq => q4 hq.symm,
                      q5, q6⟩)]
                  cases hl : dlookup d kv.1 with
                  | none =>
                    exact absurd (hl ▸ isSome_dlookup_of_mem hm) (by simp)
                  | some v => simp

/-!
## Claims
-/

/-- C7: for every Signed payload and reference time `t`, `is_expired t` is
true iff `t >= expires` (chronological order of the instants); at the
boundary `t == expires` the result is true. -/
theorem c7_is_expired_iff (p : SignedPayload) (t : Datetime) :
    (p.is_expired t = true ↔ p.expires.iso ≤ t.iso) ∧
    p.is_expired p.expires = true := by
  constructor
  · simp [SignedPayload.is_expired, Datetime.le]
  · simp [SignedPayload.is_expired, Datetime.le]

/-- C10: `Root.add_key` with a role name absent from the roles map raises a
lookup error (`KeyError`, from `self.roles[role]`) and leaves both the roles
map and the key store — the whole object — unchanged. -/
theorem c10_add_key_unknown_role (r : Root) (role keyid : String) (km : Key)
    (h : alookup r.roles role = none) :
    Root.add_key r role keyid km = (some (), r) := by
  simp [Root.add_key, h]

theorem c10_add_key_unknown_role_witness :
    alookup sampleRoot0.roles "timestamp" = none ∧
    Root.add_key sampleRoot0 "timestamp" "k2" sampleKey =
      (some (), sampleRoot0) :=
  ⟨rfl, c10_add_key_unknown_role sampleRoot0 "timestamp" "k2" sampleKey rfl⟩

/-- C1 (code bug): decoding a wire metadata record whose signature list
contains two signature entries with the same keyid succeeds —
`Metadata.from_dict` performs no keyid-uniqueness validation, while the
repository's own test (`test_metadata_base`, "deserializing metadata with
non-unique signatures") asserts a `ValueError`.  Both duplicate signatures
are retained on the decoded object. -/
theorem c1_duplicate_keyid_decode_succeeds :
    (Metadata.from_dict sampleDupSigDict).map (fun p => p.1.signatures) =
      some [⟨"k", "s1"⟩, ⟨"k", "s2"⟩] := by
  rfl

/-- C3 (code bug): `Metadata.verify` calls the external `verify_signature`
primitive without catching its exceptions, so a crypto-library failure
(e.g. `UnsupportedAlgorithmError` for an unsupported scheme, `CryptoError`
for malformed key material) surfaces raw and distinct to the caller, not as
the single normalized signature-invalid error kind that the repository's own
test suite (`test_sign_verify`) expects (`exceptions.UnsignedMetadataError`). -/
theorem c3_verify_leaks_crypto_exception :
    Metadata.verify sampleMeta1 ⟨"k", .null⟩
        (fun _ _ _ => .exn "UnsupportedAlgorithmError") constSerializer =
      .error (.cryptoError "UnsupportedAlgorithmError") ∧
    Metadata.verify sampleMeta1 ⟨"k", .null⟩
        (fun _ _ _ => .exn "CryptoError") constSerializer =
      .error (.cryptoError "CryptoError") := by
  exact ⟨rfl, rfl⟩

/-- C5 counterexample: the claim as stated is false.  In `sampleRoot0` the
keyid `k` IS in role `root`'s key-id set — so per the claim `remove_key`
must succeed and delete the key — yet the call raises `KeyError`, because
after removing the last role reference `del self.keys[keyid]` fires on a key
store that lacks the keyid. -/
theorem c5_remove_key_counterexample :
    alookup sampleRoot0.roles "root" = some ⟨["k"], .num 1, []⟩ ∧
    "k" ∈ (Role.keyids ⟨["k"], .num 1, []⟩) ∧
    (Root.remove_key sampleRoot0 "root" "k").1 = some () := by
  refine ⟨rfl, by decide, by decide⟩

/-- C5 (amended): for a role present in the roles map, `remove_key` raises a
not-found error when the keyid is not in that role's key-id set; when it is
— provided the key store holds the keyid or another role still references it
(the data-model invariant; without it the `del` raises, see the
counterexample) — the call succeeds, removes the keyid from the role, and
deletes the key from the key store iff no remaining role references it. -/
theorem c5_remove_key_correct (r : Root) (role : String) (ri : Role)
    (keyid : String) (hrole : alookup r.roles role = some ri) :
    (keyid ∉ ri.keyids →
      Root.remove_key r role keyid = (some (), r)) ∧
    (keyid ∈ ri.keyids →
      ((alookup r.keys keyid).isSome = true ∨
       anyRoleHas (ainsert r.roles role (ri.withoutKeyid keyid)) keyid
         = true) →
      (Root.remove_key r role keyid).1 = none ∧
      (Root.remove_key r role keyid).2.roles =
        ainsert r.roles role (ri.withoutKeyid keyid) ∧
      (Root.remove_key r role keyid).2.keys =
        (if anyRoleHas (ainsert r.roles role (ri.withoutKeyid keyid)) keyid
            = true
         then r.keys else aerase r.keys keyid)) := by
  constructor
  · intro hmem
    simp only [Root.remove_key, hrole]
    rw [if_neg hmem]
  · intro hmem hinv
    simp only [Root.remove_key, hrole]
    rw [if_pos hmem]
    by_cases hany : anyRoleHas (ainsert r.roles role
        (ri.withoutKeyid keyid)) keyid = true
    · rw [if_pos hany, if_pos hany]
      exact ⟨rfl, rfl, rfl⟩
    · have hsome : (alookup r.keys keyid).isSome = true := by
        cases hinv with
        | inl h => exact h
        | inr h => exact absurd h hany
      rw [if_neg hany, if_neg hany, if_pos hsome]
      exact ⟨rfl, rfl, rfl⟩

theorem c5_remove_key_correct_witness :
    (Root.remove_key sampleRootB "root" "k").1 = none ∧
    (Root.remove_key sampleRootB "root" "k").2.roles =
      [("root", ⟨[], .num 1, []⟩), ("targets", ⟨["k"], .num 1, []⟩)] ∧
    (Root.remove_key sampleRootB "root" "k").2.keys = [("k", sampleKey)] := by
  have h := (c5_remove_key_correct sampleRootB "root" ⟨["k"], .num 1, []⟩ "k"
    rfl).2 (by decide) (Or.inl rfl)
  exact ⟨h.1, h.2.1, h.2.2⟩

/-- C4 counterexample: a failed mutating call that leaves the object
half-mutated.  `remove_key` on `sampleRoot0` raises (`del self.keys[keyid]`
fires on a store lacking the keyid) after the keyid has already been removed
from the role: the failed call changed the roles map from
`root -> [k]` to `root -> []`. -/
theorem c4_remove_key_not_atomic_counterexample :
    (Root.remove_key sampleRoot0 "root" "k").1.isSome = true ∧
    ((Root.remove_key sampleRoot0 "root" "k").2.roles.map
      (fun kv => (kv.1, kv.2.keyids))) = [("root", [])] ∧
    (sampleRoot0.roles.map (fun kv => (kv.1, kv.2.keyids))) =
      [("root", ["k"])] ∧
    ([("root", ([] : List String))] ≠ [("root", ["k"])]) := by
  exact ⟨rfl, rfl, rfl, by decide⟩

/-- C4 (amended): failed mutating calls leave the object unchanged — `sign`
computes the signature before touching the signature list and `add_key`
looks the role up before mutating — with the single exception of
`Root.remove_key`, which, when the keyid is on the role but absent from the
key store and no other role references it, fails only after removing the
keyid from the role.  `Timestamp.update`, `Snapshot.update` and
`Targets.update` — which fail (`TypeError`) when the mapping they assign
into is not a dict — mutate in a single assignment and so leave the object
unchanged whenever they fail. -/
theorem c4_failed_calls_atomic :
    (∀ (m : Metadata) (signer : String → Option Signature) (append : Bool)
       (ser : SignedPayload → String),
      (Metadata.sign m signer append ser).1 = none →
      (Metadata.sign m signer append ser).2 = m) ∧
    (∀ (r : Root) (role keyid : String) (km : Key),
      (Root.add_key r role keyid km).1.isSome = true →
      (Root.add_key r role keyid km).2 = r) ∧
    (∀ (r : Root) (role keyid : String),
      (Root.remove_key r role keyid).1.isSome = true →
      (Root.remove_key r role keyid).2 = r ∨
      (∃ ri, alookup r.roles role = some ri ∧
        keyid ∈ ri.keyids ∧
        alookup r.keys keyid = none ∧
        (Root.remove_key r role keyid).2 =
          { r with
            roles := ainsert r.roles role (ri.withoutKeyid keyid) })) ∧
    (∀ (t : Timestamp) (version : Int) (length : Option Int)
       (hashes : Option Json),
      (Timestamp.update t version length hashes).1.isSome = true →
      (Timestamp.update t version length hashes).2 = t) ∧
    (∀ (sn : Snapshot) (rolename : String) (version : Int)
       (length : Option Int) (hashes : Option Json),
      (Snapshot.update sn rolename version length hashes).1.isSome = true →
      (Snapshot.update sn rolename version length hashes).2 = sn) ∧
    (∀ (t : Targets) (filename : String) (fileinfo : Json),
      (Targets.update t filename fileinfo).1.isSome = true →
      (Targets.update t filename fileinfo).2 = t) := by
  refine ⟨?_, ?_, ?_, ?_, ?_, ?_⟩
  · intro m signer append ser h
    unfold Metadata.sign at h ⊢
    cases hs : signer (ser m.signed) with
    | none => simp
    | some s => rw [hs] at h; exact absurd h (by simp)
  · intro r role keyid km h
    unfold Root.add_key at h ⊢
    cases hr : alookup r.roles role with
    | none => simp
    | some ri => rw [hr] at h; exact absurd h (by simp)
  · intro r role keyid h
    simp only [Root.remove_key] at h ⊢
    cases hr : alookup r.roles role with
    | none => simp [hr] at h ⊢
    | some ri =>
      simp only [hr] at h ⊢
      by_cases hmem : keyid ∈ ri.keyids
      · rw [if_pos hmem] at h ⊢
        by_cases hany : anyRoleHas (ainsert r.roles role
            (ri.withoutKeyid keyid)) keyid = true
        · rw [if_pos hany] at h; exact absurd h (by simp)
        · rw [if_neg hany] at h ⊢
          cases hk : (alookup r.keys keyid).isSome with
          | true => rw [if_pos hk] at h; exact absurd h (by simp)
          | false =>
            rw [if_neg (by simp [hk])] at h ⊢
            refine Or.inr ⟨ri, rfl, hmem, ?_, rfl⟩
            exact Option.not_isSome_iff_eq_none.mp (by simp [hk])
      · rw [if_neg hmem] at h ⊢
        exact Or.inl rfl
  · intro t version length hashes h
    obtain ⟨c, meta, uf⟩ := t
    cases meta with
    | obj m => exact absurd h (by simp [Timestamp.update])
    | null => rfl
    | bool b => rfl
    | num n => rfl
    | str t => rfl
    | arr xs => rfl
  · intro sn rolename version length hashes h
    obtain ⟨c, meta, uf⟩ := sn
    cases meta with
    | obj m => exact absurd h (by simp [Snapshot.update])
    | null => rfl
    | bool b => rfl
    | num n => rfl
    | str t => rfl
    | arr xs => rfl
  · intro t filename fileinfo h
    obtain ⟨c, targets, dg, uf⟩ := t
    cases targets with
    | obj m => exact absurd h (by simp [Targets.update])
    | null => rfl
    | bool b => rfl
    | num n => rfl
    | str t => rfl
    | arr xs => rfl

theorem c4_failed_calls_atomic_witness :
    (Metadata.sign sampleMeta1 (fun _ => none) true constSerializer).2 =
      sampleMeta1 ∧
    (Root.add_key sampleRoot0 "timestamp" "k2" sampleKey).2 = sampleRoot0 ∧
    (Timestamp.update sampleTimestampRawMeta 2 none none).2 =
      sampleTimestampRawMeta :=
  ⟨c4_failed_calls_atomic.1 sampleMeta1 (fun _ => none) true constSerializer
     rfl,
   c4_failed_calls_atomic.2.1 sampleRoot0 "timestamp" "k2" sampleKey rfl,
   c4_failed_calls_atomic.2.2.2.1 sampleTimestampRawMeta 2 none none rfl⟩

/-- C6: `sign(append=true)` appends exactly the one produced signature and
returns it; `sign(append=false)` replaces the whole list with it.  After
signing with K (replace) and appending a signature by K2, `verify` succeeds
independently for K and for K2 (given the external primitive validates each
signer's output for its key), and `verify` for an absent key K3 raises the
no-matching-signature `tuf.exceptions.Error`. -/
theorem c6_sign_verify_protocol (m : Metadata) (ser : SignedPayload → String)
    (signerK signerK2 : String → Option Signature) (kK kK2 kK3 : PubKey)
    (vf : PubKey → Signature → String → CryptoResult) (sgK sgK2 : Signature)
    (h1 : signerK (ser m.signed) = some sgK)
    (h2 : signerK2 (ser m.signed) = some sgK2)
    (hkid1 : sgK.keyid = kK.keyid) (hkid2 : sgK2.keyid = kK2.keyid)
    (hne : kK.keyid ≠ kK2.keyid)
    (hvf1 : vf kK sgK (ser m.signed) = .ok true)
    (hvf2 : vf kK2 sgK2 (ser m.signed) = .ok true)
    (hk31 : kK3.keyid ≠ kK.keyid) (hk32 : kK3.keyid ≠ kK2.keyid) :
    (∀ (m2 : Metadata) (s : String → Option Signature) (sg : Signature),
      s (ser m2.signed) = some sg →
      Metadata.sign m2 s true ser =
        (some sg, { m2 with signatures := m2.signatures ++ [sg] })) ∧
    (∀ (m2 : Metadata) (s : String → Option Signature) (sg : Signature),
      s (ser m2.signed) = some sg →
      Metadata.sign m2 s false ser =
        (some sg, { m2 with signatures := [sg] })) ∧
    ((Metadata.sign (Metadata.sign m signerK false ser).2 signerK2 true
        ser).2.signatures = [sgK, sgK2]) ∧
    (Metadata.verify (Metadata.sign (Metadata.sign m signerK false ser).2
        signerK2 true ser).2 kK vf ser = .ok true) ∧
    (Metadata.verify (Metadata.sign (Metadata.sign m signerK false ser).2
        signerK2 true ser).2 kK2 vf ser = .ok true) ∧
    (Metadata.verify (Metadata.sign (Metadata.sign m signerK false ser).2
        signerK2 true ser).2 kK3 vf ser =
      .error (.tufError ("no signature for key " ++ kK3.keyid ++ "."))) := by
  have happend : ∀ (m2 : Metadata) (s : String → Option Signature)
      (sg : Signature), s (ser m2.signed) = some sg →
      Metadata.sign m2 s true ser =
        (some sg, { m2 with signatures := m2.signatures ++ [sg] }) := by
    intro m2 s sg hs
    simp [Metadata.sign, hs]
  have hreplace : ∀ (m2 : Metadata) (s : String → Option Signature)
      (sg : Signature), s (ser m2.signed) = some sg →
      Metadata.sign m2 s false ser =
        (some sg, { m2 with signatures := [sg] }) := by
    intro m2 s sg hs
    simp [Metadata.sign, hs]
  have hm1 : (Metadata.sign m signerK false ser).2 =
      { m with signatures := [sgK] } := by
    rw [hreplace m signerK sgK h1]
  have hm2 : (Metadata.sign (Metadata.sign m signerK false ser).2 signerK2
      true ser).2 = { m with signatures := [sgK, sgK2] } := by
    rw [hm1, happend { m with signatures := [sgK] } signerK2 sgK2 h2]
    rfl
  have hbK : (sgK.keyid == kK.keyid) = true := by simp [hkid1]
  have hbK2 : (sgK2.keyid == kK2.keyid) = true := by simp [hkid2]
  have hbKn : (sgK2.keyid == kK.keyid) = false := by
    simp [hkid2]
    exact fun h => hne h.symm
  have hbK2n : (sgK.keyid == kK2.keyid) = false := by
    simp [hkid1]
    exact hne
  have hb3a : (sgK.keyid == kK3.keyid) = false := by
    simp [hkid1]
    exact fun h => hk31 h.symm
  have hb3b : (sgK2.keyid == kK3.keyid) = false := by
    simp [hkid2]
    exact fun h => hk32 h.symm
  refine ⟨happend, hreplace, by rw [hm2], ?_, ?_, ?_⟩
  · rw [hm2]
    simp [Metadata.verify, hbK, hbKn, hvf1]
  · rw [hm2]
    simp [Metadata.verify, hbK2, hbK2n, hvf2]
  · rw [hm2]
    simp [Metadata.verify, hb3a, hb3b]

theorem c6_sign_verify_protocol_witness :
    (Metadata.sign (Metadata.sign sampleMeta0 toySigner1 false
        constSerializer).2 toySigner2 true constSerializer).2.signatures =
      [⟨"k1", "s1"⟩, ⟨"k2", "s2"⟩] ∧
    Metadata.verify (Metadata.sign (Metadata.sign sampleMeta0 toySigner1 false
        constSerializer).2 toySigner2 true constSerializer).2
      ⟨"k1", .null⟩ toyVerifier constSerializer = .ok true ∧
    Metadata.verify (Metadata.sign (Metadata.sign sampleMeta0 toySigner1 false
        constSerializer).2 toySigner2 true constSerializer).2
      ⟨"k3", .null⟩ toyVerifier constSerializer =
        .error (.tufError ("no signature for key " ++ "k3" ++ ".")) :=
  have h := c6_sign_verify_protocol sampleMeta0 constSerializer toySigner1
    toySigner2 ⟨"k1", .null⟩ ⟨"k2", .null⟩ ⟨"k3", .null⟩ toyVerifier
    ⟨"k1", "s1"⟩ ⟨"k2", "s2"⟩ rfl rfl rfl rfl (by decide) (by decide)
    (by decide) (by decide) (by decide)
  ⟨h.2.2.1, h.2.2.2.1, h.2.2.2.2.2⟩

/-- C8 (spec-modelled): with both length and hashes unset, verification
succeeds unconditionally against any content, for both record kinds; a
mismatching recorded length, a mismatching first recorded digest, and an
unsupported/malformed first algorithm label each fail with the same single
integrity-mismatch error value. -/
theorem c8_verify_length_and_hashes
    (hashFn : String → Option (List Nat → String)) (data : List Nat) :
    (∀ f : MetaFile, f.length = none → f.hashes = none →
      f.verify_length_and_hashes hashFn data = .ok ()) ∧
    (∀ f : TargetFile, f.length = none → f.hashes = none →
      f.verify_length_and_hashes hashFn data = .ok ()) ∧
    (∀ (f : MetaFile) (l : Int), f.length = some l →
      (data.length : Int) ≠ l →
      f.verify_length_and_hashes hashFn data = .error .mk) ∧
    (∀ (f : TargetFile) (l : Int), f.length = some l →
      (data.length : Int) ≠ l →
      f.verify_length_and_hashes hashFn data = .error .mk) ∧
    (∀ (f : MetaFile) (alg dig : String) (rest : List (String × String)),
      f.length = none → f.hashes = some ((alg, dig) :: rest) →
      hashFn alg = none →
      f.verify_length_and_hashes hashFn data = .error .mk) ∧
    (∀ (f : MetaFile) (alg dig : String) (rest : List (String × String))
       (h : List Nat → String),
      f.length = none → f.hashes = some ((alg, dig) :: rest) →
      hashFn alg = some h → h data ≠ dig →
      f.verify_length_and_hashes hashFn data = .error .mk) := by
  refine ⟨?_, ?_, ?_, ?_, ?_, ?_⟩
  · intro f hl hh
    simp [MetaFile.verify_length_and_hashes, check_length_and_hashes, hl, hh]
  · intro f hl hh
    simp [TargetFile.verify_length_and_hashes, check_length_and_hashes,
      hl, hh]
  · intro f l hl hne
    simp [MetaFile.verify_length_and_hashes, check_length_and_hashes, hl,
      hne]
  · intro f l hl hne
    simp [TargetFile.verify_length_and_hashes, check_length_and_hashes, hl,
      hne]
  · intro f alg dig rest hl hh halg
    simp [MetaFile.verify_length_and_hashes, check_length_and_hashes, hl,
      hh, checkHashes, halg]
  · intro f alg dig rest h hl hh halg hne
    simp [MetaFile.verify_length_and_hashes, check_length_and_hashes, hl,
      hh, checkHashes, halg, hne]

theorem c8_verify_length_and_hashes_witness :
    MetaFile.verify_length_and_hashes ⟨some 1, none, none⟩
      (fun _ => none) [7] = .ok () ∧
    MetaFile.verify_length_and_hashes ⟨some 1, some 2, none⟩
      (fun _ => none) [7] = .error .mk ∧
    MetaFile.verify_length_and_hashes ⟨none, none, some [("sha256", "x")]⟩
      (fun _ => none) [7] = .error .mk :=
  ⟨(c8_verify_length_and_hashes (fun _ => none) [7]).1 ⟨some 1, none, none⟩
     rfl rfl,
   (c8_verify_length_and_hashes (fun _ => none) [7]).2.2.1
     ⟨some 1, some 2, none⟩ 2 rfl (by decide),
   (c8_verify_length_and_hashes (fun _ => none) [7]).2.2.2.2.1
     ⟨none, none, some [("sha256", "x")]⟩ "sha256" "x" [] rfl rfl rfl⟩

/-- C9: decoding destroys the caller's wire record.  After a successful
`Metadata.from_dict` the caller's dict (the returned residual) no longer
contains its `signatures` and `signed` entries; likewise `Key.from_dict`
consumes `keytype`/`scheme`/`keyval` and `Signed._common_fields_from_dict`
consumes `_type`/`version`/`spec_version`/`expires` from their input
dicts. -/
theorem c9_from_dict_consumes_input :
    (∀ (d : Dict) (m : Metadata) (rest : Dict),
      Metadata.from_dict d = some (m, rest) →
      dlookup rest "signatures" = none ∧ dlookup rest "signed" = none) ∧
    (∀ (d : Dict) (k : Key) (rest : Dict),
      Key.from_dict d = some (k, rest) →
      dlookup rest "keytype" = none ∧ dlookup rest "scheme" = none ∧
      dlookup rest "keyval" = none) ∧
    (∀ (t : String) (d : Dict) (c : CommonFields) (rest : Dict),
      common_fields_from_dict t d = some (c, rest) →
      dlookup rest "_type" = none ∧ dlookup rest "version" = none ∧
      dlookup rest "spec_version" = none ∧ dlookup rest "expires" = none) := by
  refine ⟨?_, ?_, ?_⟩
  · intro d m rest h
    have hrest := metadata_from_dict_residual h
    subst hrest
    rw [dlookup_derases, dlookup_derases]
    exact ⟨by rw [if_pos (by decide)], by rw [if_pos (by decide)]⟩
  · intro d k rest h
    have hrest := (key_from_dict_spec h).2.2.2.2.1
    subst hrest
    rw [dlookup_derases, dlookup_derases, dlookup_derases]
    exact ⟨by rw [if_pos (by decide)], by rw [if_pos (by decide)],
      by rw [if_pos (by decide)]⟩
  · intro t d c rest h
    have hrest := (common_fields_from_dict_spec h).2.2.2.2.2.2
    subst hrest
    rw [dlookup_derases, dlookup_derases, dlookup_derases, dlookup_derases]
    exact ⟨by rw [if_pos (by decide)], by rw [if_pos (by decide)],
      by rw [if_pos (by decide)], by rw [if_pos (by decide)]⟩

theorem c9_from_dict_consumes_input_witness :
    dlookup [] "signatures" = none ∧ dlookup [] "signed" = none :=
  c9_from_dict_consumes_input.1 sampleDupSigDict
    ⟨.timestamp ⟨⟨1, .str "1.0.0", ⟨"2030-01-01T00:00:00Z"⟩⟩, .obj [], []⟩,
     [⟨"k", "s1"⟩, ⟨"k", "s2"⟩]⟩ [] rfl

/-- C2 counterexample: the round-trip law as stated fails, in two ways.
(1) The well-formed targets wire record `c2CounterDict` — whose delegated
role carries `"paths": []` — decodes successfully, but re-encoding drops
the falsy `paths` entry (`DelegatedRole.to_dict` emits it only when
truthy), so `to_dict(from_dict(x)) != x` even with insertion-order set
iteration.  (2) `Role.to_dict` emits `list(self.keyids)` where
`self.keyids` is a CPython `set`, whose iteration order is hash-dependent
and need not match the wire order: on the well-formed root record
`c2KeyidsDict` with keyids `["a", "b"]`, an iteration order that yields
the (same-contents) permutation `["b", "a"]` makes the re-encoded record
differ from the input, since lists compare order-sensitively. -/
theorem c2_roundtrip_counterexample :
    (wfJson (.obj c2CounterDict) = true ∧
     ((Targets.from_dict c2CounterDict).map
       (fun p => pyEq (.obj (p.1.to_dict (fun xs => xs)))
         (.obj c2CounterDict))) = some false) ∧
    (wfJson (.obj c2KeyidsDict) = true ∧
     (List.reverse ["a", "b"]).Perm ["a", "b"] ∧
     ((Root.from_dict c2KeyidsDict).map
       (fun p => pyEq (.obj (p.1.to_dict List.reverse))
         (.obj c2KeyidsDict))) = some false) := by
  exact ⟨⟨by decide, by decide⟩, by decide, by decide, by decide⟩

/-- C2 (amended): decode/encode round-trips — `to_dict(from_dict(x))`
Python-equals `x` — hold for every well-formed timestamp and snapshot wire
record, with arbitrary unrecognized fields at every nesting level; for
root and targets records they additionally require (a) that the iteration
order `set_iter` of the role key-id sets (hash-dependent in CPython, here
an explicit parameter) coincide with wire insertion order — otherwise the
re-encoded `keyids` lists may be permuted — and, (b) for targets, that
the conditionally-emitted optional fields (`delegations` on the payload,
`paths`/`path_hash_prefixes` on each delegated role record) be, when
present, truthy; a present-but-falsy value (null, empty list, …) decodes
successfully but is dropped on re-encoding (see the counterexample). -/
theorem c2_roundtrip (set_iter : List String → List String)
    (hord : ∀ xs : List String, set_iter xs = xs) :
    (∀ (d : Dict) (r : Root) (rest : Dict), wfJson (.obj d) = true →
      Root.from_dict d = some (r, rest) →
      pyEq (.obj (r.to_dict set_iter)) (.obj d) = true) ∧
    (∀ (d : Dict) (t : Timestamp) (rest : Dict), wfJson (.obj d) = true →
      Timestamp.from_dict d = some (t, rest) →
      pyEq (.obj t.to_dict) (.obj d) = true) ∧
    (∀ (d : Dict) (t : Snapshot) (rest : Dict), wfJson (.obj d) = true →
      Snapshot.from_dict d = some (t, rest) →
      pyEq (.obj t.to_dict) (.obj d) = true) ∧
    (∀ (d : Dict) (t : Targets) (rest : Dict), wfJson (.obj d) = true →
      targetsRecordOk d = true →
      Targets.from_dict d = some (t, rest) →
      pyEq (.obj (t.to_dict set_iter)) (.obj d) = true) :=
  ⟨fun _ _ _ hwf h => root_roundtrip set_iter hord hwf h,
   fun _ _ _ hwf h => timestamp_roundtrip hwf h,
   fun _ _ _ hwf h => snapshot_roundtrip hwf h,
   fun _ _ _ hwf hok h => targets_roundtrip set_iter hord hwf hok h⟩

theorem c2_roundtrip_witness :
    pyEq (.obj (Timestamp.to_dict
        ⟨⟨1, .str "1.0.0", ⟨"2030-01-01T00:00:00Z"⟩⟩, .obj [], []⟩))
      (.obj sampleTimestampDict) = true :=
  (c2_roundtrip (fun xs => xs) (fun _ => rfl)).2.1 sampleTimestampDict
    ⟨⟨1, .str "1.0.0", ⟨"2030-01-01T00:00:00Z"⟩⟩, .obj [], []⟩ []
    (by decide) rfl
